import Mathlib

/-!
# easyconnect: a verification development

A shallow embedding of `main.go` (a toggle for the Cisco AnyConnect command-line
client) together with the parts of the Go standard library it calls.

* A Go `string` / `[]byte` is the list of its bytes (`Bytes`); a slice `s[i:j]`
  is `(s.drop i).take (j - i)`.
* A Go `rune` is a natural number.
* Loops over a slice that advance by a decoded width carry a fuel argument that
  is initialised with the length of the slice, which is never exhausted because
  every iteration consumes at least one byte.
* The operating system (environment, file system, JSON codec, child processes)
  and the Unicode case tables are parameters, collected in `Env`.
-/

namespace EasyConnect

/-! ## Bytes and literals -/

/-- A Go string or byte slice. -/
abbrev Bytes := List Nat

/-- The bytes of an ASCII literal. -/
def ascii (s : String) : Bytes := s.toList.map Char.toNat

/-! ## unicode/utf8 -/

/-- The constant utf8.RuneError, U+FFFD. -/
def RuneError : Nat := 0xFFFD

/-- The constant utf8.RuneSelf: bytes below it are single-byte runes. -/
def RuneSelf : Nat := 0x80

/-- The constant unicode.MaxRune. -/
def MaxRune : Nat := 0x10FFFF

/-- Continuation byte test of utf8 (locb = 0x80, hicb = 0xBF). -/
def isCont (b : Nat) : Bool := decide (0x80 ≤ b) && decide (b ≤ 0xBF)

/-- The table utf8.acceptRanges, as selected by the lead byte: the least
second byte accepted after `p0`. -/
def acceptLo (p0 : Nat) : Nat := if p0 = 0xE0 then 0xA0 else if p0 = 0xF0 then 0x90 else 0x80

/-- The table utf8.acceptRanges: the greatest second byte accepted after `p0`. -/
def acceptHi (p0 : Nat) : Nat := if p0 = 0xED then 0x9F else if p0 = 0xF4 then 0x8F else 0xBF

/-- The test `accept.lo <= b1 && b1 <= accept.hi` of utf8.DecodeRune. -/
def accepts (p0 b1 : Nat) : Bool := decide (acceptLo p0 ≤ b1) && decide (b1 ≤ acceptHi p0)

/-- Go utf8.DecodeRune: the first rune of `p` and its width. `(RuneError, 0)` on
the empty slice and `(RuneError, 1)` on an invalid or truncated encoding (the
lead bytes 0x80-0xC1 and 0xF5-0xFF are the entries `xx` of the table `first`;
the test `n < sz` is the missing byte of a match). The masks `p0 & 0x1F`,
`b & 0x3F` are written `% 32`, `% 64` and the shifts as multiplications. -/
def decodeRune : Bytes → Nat × Nat
  | [] => (RuneError, 0)
  | p0 :: t =>
    if p0 < 0x80 then (p0, 1)
    else if p0 < 0xC2 ∨ 0xF4 < p0 then (RuneError, 1)
    else
      match t with
      | [] => (RuneError, 1)
      | b1 :: t1 =>
        if !accepts p0 b1 then (RuneError, 1)
        else if p0 < 0xE0 then (p0 % 32 * 64 + b1 % 64, 2)
        else
          match t1 with
          | [] => (RuneError, 1)
          | b2 :: t2 =>
            if !isCont b2 then (RuneError, 1)
            else if p0 < 0xF0 then (p0 % 16 * 4096 + b1 % 64 * 64 + b2 % 64, 3)
            else
              match t2 with
              | [] => (RuneError, 1)
              | b3 :: _ =>
                if !isCont b3 then (RuneError, 1)
                else (p0 % 8 * 262144 + b1 % 64 * 4096 + b2 % 64 * 64 + b3 % 64, 4)

/-- Go utf8.RuneStart: `b & 0xC0 != 0x80`. -/
def runeStart (b : Nat) : Bool := decide (b / 64 % 4 ≠ 2)

/-- The backing-up loop of utf8.DecodeLastRune,
`for start--; start >= lim; start-- { if RuneStart(p[start]) { break } }`
followed by `if start < 0 { start = 0 }`. The argument is `start + 1`. -/
def lastStart (p : Bytes) (lim : Nat) : Nat → Nat
  | 0 => 0
  | j + 1 =>
    if j < lim then j
    else if runeStart (p.getD j 0) then j
    else lastStart p lim j

/-- Go utf8.DecodeLastRune: the last rune of `p` and its width. -/
def decodeLastRune (p : Bytes) : Nat × Nat :=
  let e := p.length
  if e = 0 then (RuneError, 0)
  else
    let r := p.getD (e - 1) 0
    if r < RuneSelf then (r, 1)
    else
      let lim := e - 4
      let start := lastStart p lim (e - 1)
      let rs := decodeRune (p.drop start)
      if start + rs.2 ≠ e then (RuneError, 1) else rs

/-- Go utf8.AppendRune on an empty buffer: the UTF-8 encoding of `r`; surrogates
and values above MaxRune are encoded as RuneError. -/
def encodeRune (r : Nat) : Bytes :=
  if r ≤ 0x7F then [r]
  else if r ≤ 0x7FF then [0xC0 + r / 64, 0x80 + r % 64]
  else if MaxRune < r ∨ (0xD800 ≤ r ∧ r ≤ 0xDFFF) then [0xEF, 0xBF, 0xBD]
  else if r ≤ 0xFFFF then [0xE0 + r / 4096, 0x80 + r / 64 % 64, 0x80 + r % 64]
  else [0xF0 + r / 262144, 0x80 + r / 4096 % 64, 0x80 + r / 64 % 64, 0x80 + r % 64]

/-! ## unicode -/

/-- Go unicode.IsSpace: the Latin-1 switch, then the White_Space table. -/
def isSpace (r : Nat) : Bool :=
  if r ≤ 0xFF then
    decide (r = 0x09 ∨ r = 0x0A ∨ r = 0x0B ∨ r = 0x0C ∨ r = 0x0D ∨ r = 0x20 ∨ r = 0x85 ∨ r = 0xA0)
  else
    decide (r = 0x1680 ∨ (0x2000 ≤ r ∧ r ≤ 0x200A) ∨ r = 0x2028 ∨ r = 0x2029 ∨ r = 0x202F ∨
      r = 0x205F ∨ r = 0x3000)

/-- The table unicode.asciiFold: the next rune in the simple-folding orbit of
an ASCII rune. `k` and `s` continue to the Kelvin sign and the long s. -/
def asciiFold (r : Nat) : Nat :=
  if 0x41 ≤ r ∧ r ≤ 0x5A then r + 0x20
  else if r = 0x6B then 0x212A
  else if r = 0x73 then 0x017F
  else if 0x61 ≤ r ∧ r ≤ 0x7A then r - 0x20
  else r

/-- Go unicode.SimpleFold; `orbit` stands for the caseOrbit / CaseRanges tables
consulted for runes above ASCII. -/
def simpleFold (orbit : Nat → Nat) (r : Nat) : Nat :=
  if MaxRune < r then r
  else if r < 0x80 then asciiFold r
  else orbit r

/-- Go unicode.ToLower; `lower` stands for the CaseRanges table consulted for
runes above ASCII. -/
def unicodeToLower (lower : Nat → Nat) (r : Nat) : Nat :=
  if r ≤ 0x7F then (if 0x41 ≤ r ∧ r ≤ 0x5A then r + 0x20 else r)
  else lower r

/-! ## bytes / strings -/

/-- Go bytes.HasPrefix. -/
def hasPrefix : Bytes → Bytes → Bool
  | _, [] => true
  | [], _ :: _ => false
  | a :: s, b :: p => decide (a = b) && hasPrefix s p

/-- Go bytes.TrimPrefix. -/
def trimPrefix (s p : Bytes) : Bytes :=
  if hasPrefix s p then s.drop p.length else s

/-- Go bytes.Split / strings.Split for a one-byte separator: the pieces between
the occurrences of `sep`; always at least one piece. -/
def split (sep : Nat) : Bytes → List Bytes
  | [] => [[]]
  | c :: t =>
    if c = sep then [] :: split sep t
    else
      match split sep t with
      | [] => [[c]]
      | piece :: pieces => (c :: piece) :: pieces

/-- The table bytes.asciiSpace. -/
def asciiSpace (c : Nat) : Bool :=
  decide (c = 0x09 ∨ c = 0x0A ∨ c = 0x0B ∨ c = 0x0C ∨ c = 0x0D ∨ c = 0x20)

/-- The loop of bytes.indexFunc from index `start`: the index of the first rune
`r` with `f r = truth`. -/
def indexFuncLoop (f : Nat → Bool) (truth : Bool) (s : Bytes) : Nat → Nat → Option Nat
  | 0, _ => none
  | fuel + 1, start =>
    if start < s.length then
      let b := s.getD start 0
      let rw := if b < RuneSelf then (b, 1) else decodeRune (s.drop start)
      if f rw.1 = truth then some start
      else indexFuncLoop f truth s fuel (start + rw.2)
    else none

/-- Go bytes.indexFunc (`none` is -1). -/
def indexFunc (f : Nat → Bool) (truth : Bool) (s : Bytes) : Option Nat :=
  indexFuncLoop f truth s s.length 0

/-- The loop of bytes.lastIndexFunc from end index `i`. -/
def lastIndexFuncLoop (f : Nat → Bool) (truth : Bool) (s : Bytes) : Nat → Nat → Option Nat
  | 0, _ => none
  | fuel + 1, i =>
    if 0 < i then
      let b := s.getD (i - 1) 0
      let rw := if b < RuneSelf then (b, 1) else decodeLastRune (s.take i)
      if f rw.1 = truth then some (i - rw.2)
      else lastIndexFuncLoop f truth s fuel (i - rw.2)
    else none

/-- Go bytes.lastIndexFunc (`none` is -1). -/
def lastIndexFunc (f : Nat → Bool) (truth : Bool) (s : Bytes) : Option Nat :=
  lastIndexFuncLoop f truth s s.length s.length

/-- Go bytes.TrimLeftFunc. -/
def trimLeftFunc (s : Bytes) (f : Nat → Bool) : Bytes :=
  match indexFunc f false s with
  | none => []
  | some i => s.drop i

/-- Go bytes.TrimRightFunc. -/
def trimRightFunc (s : Bytes) (f : Nat → Bool) : Bytes :=
  match lastIndexFunc f false s with
  | some i =>
    if RuneSelf ≤ s.getD i 0 then s.take (i + (decodeRune (s.drop i)).2)
    else s.take (i + 1)
  | none => []

/-- Go bytes.TrimFunc. -/
def trimFunc (s : Bytes) (f : Nat → Bool) : Bytes :=
  trimRightFunc (trimLeftFunc s f) f

/-- Second loop of bytes.TrimSpace on `u = s[start:]`: `stop` runs down from
the end of `u`. -/
def trimSpaceStop (u : Bytes) : Nat → Bytes
  | 0 => []
  | stop + 1 =>
    let c := u.getD stop 0
    if RuneSelf ≤ c then trimFunc (u.take (stop + 1)) isSpace
    else if asciiSpace c then trimSpaceStop u stop
    else u.take (stop + 1)

/-- Go bytes.TrimSpace and strings.TrimSpace: an ASCII fast path from both ends
that falls back to `TrimFunc(…, unicode.IsSpace)` at the first non-ASCII byte.
(In its second loop strings.TrimSpace calls TrimRightFunc instead; the slice
then starts with a byte that is not white space, so TrimFunc trims the same.) -/
def trimSpace : Bytes → Bytes
  | [] => []
  | c :: t =>
    if RuneSelf ≤ c then trimFunc (c :: t) isSpace
    else if asciiSpace c then trimSpace t
    else trimSpaceStop (c :: t) (c :: t).length

/-- The loop `for r != sr && r < tr { r = SimpleFold(r) }` of strings.EqualFold. -/
def foldOrbit (orbit : Nat → Nat) (sr tr : Nat) : Nat → Nat → Nat
  | 0, r => r
  | n + 1, r => if r ≠ sr ∧ r < tr then foldOrbit orbit sr tr n (simpleFold orbit r) else r

/-- The `hasUnicode` part of strings.EqualFold: rune by rune. The orbit loop is
given 0x110000 steps, more than the number of values it can visit. -/
def equalFoldRunes (orbit : Nat → Nat) : Nat → Bytes → Bytes → Bool
  | _, [], t => t.isEmpty
  | 0, _ :: _, _ => false
  | fuel + 1, s0 :: s, t =>
    if t.isEmpty then false
    else
      let sd := decodeRune (s0 :: s)
      let td := decodeRune t
      let lo := if td.1 < sd.1 then td.1 else sd.1
      let hi := if td.1 < sd.1 then sd.1 else td.1
      if td.1 = sd.1 then equalFoldRunes orbit fuel ((s0 :: s).drop sd.2) (t.drop td.2)
      else if hi < RuneSelf then
        if 0x41 ≤ lo ∧ lo ≤ 0x5A ∧ hi = lo + 0x20 then
          equalFoldRunes orbit fuel ((s0 :: s).drop sd.2) (t.drop td.2)
        else false
      else if foldOrbit orbit lo hi 0x110000 (simpleFold orbit lo) = hi then
        equalFoldRunes orbit fuel ((s0 :: s).drop sd.2) (t.drop td.2)
      else false

/-- Go strings.EqualFold: the ASCII fast path, handing over to the rune loop at
the first position where either string has a non-ASCII byte. -/
def equalFold (orbit : Nat → Nat) : Bytes → Bytes → Bool
  | [], [] => true
  | [], _ :: _ => false
  | _ :: _, [] => false
  | sr :: s, tr :: t =>
    if RuneSelf ≤ sr ∨ RuneSelf ≤ tr then
      equalFoldRunes orbit (sr :: s).length (sr :: s) (tr :: t)
    else if tr = sr then equalFold orbit s t
    else
      let lo := if tr < sr then tr else sr
      let hi := if tr < sr then sr else tr
      if 0x41 ≤ lo ∧ lo ≤ 0x5A ∧ hi = lo + 0x20 then equalFold orbit s t else false

/-- The second loop of strings.Map: every remaining rune is mapped and encoded. -/
def mapTail (mapping : Nat → Nat) : Nat → Bytes → Bytes
  | _, [] => []
  | 0, _ :: _ => []
  | fuel + 1, b :: t =>
    let cw := decodeRune (b :: t)
    encodeRune (mapping cw.1) ++ mapTail mapping fuel ((b :: t).drop cw.2)

/-- Go strings.Map (for a mapping that never returns a negative rune): runes
that the mapping leaves unchanged are kept as they are up to the first rune
that changes or is an invalid byte; from there on every rune is re-encoded. For
a decoded rune other than RuneError, `RuneLen(c)` is the decoded width. -/
def stringsMap (mapping : Nat → Nat) : Nat → Bytes → Bytes
  | _, [] => []
  | 0, b :: t => b :: t
  | fuel + 1, b :: t =>
    let cw := decodeRune (b :: t)
    let r := mapping cw.1
    if r = cw.1 ∧ (cw.1 ≠ RuneError ∨ cw.2 ≠ 1) then
      (b :: t).take cw.2 ++ stringsMap mapping fuel ((b :: t).drop cw.2)
    else
      encodeRune r ++ mapTail mapping fuel ((b :: t).drop cw.2)

/-- The ASCII lower-casing of one byte: `c += 'a' - 'A'` for `A`-`Z`. -/
def lowerByte (c : Nat) : Nat := if 0x41 ≤ c ∧ c ≤ 0x5A then c + 0x20 else c

/-- Go strings.ToLower and bytes.ToLower: the ASCII-only path lowers `A`-`Z`
byte by byte, any other string goes through `Map(unicode.ToLower, s)`. -/
def toLower (lower : Nat → Nat) (s : Bytes) : Bytes :=
  if s.all (fun c => decide (c < RuneSelf)) then s.map lowerByte
  else stringsMap (unicodeToLower lower) s.length s

/-- Go bytes.Contains: some suffix of `s` starts with `sub`. -/
def contains (s sub : Bytes) : Bool :=
  s.tails.any (fun t => hasPrefix t sub)

/-! ## fmt.Scanln

`os.Stdin` is read one rune at a time; the rune delivered is `decodeRune` of
the unread input. `UnreadRune` is modelled by not consuming. -/

/-- A Go error value, identified by its message (`err.Error()`). -/
structure GoError where
  msg : Bytes
deriving DecidableEq, Repr

/-- The function fmt.isSpace of scan.go (the `space` range table). -/
def fmtIsSpace (r : Nat) : Bool :=
  if 0x10000 ≤ r then false
  else
    decide ((0x09 ≤ r ∧ r ≤ 0x0D) ∨ r = 0x20 ∨ r = 0x85 ∨ r = 0xA0 ∨ r = 0x1680 ∨
      (0x2000 ≤ r ∧ r ≤ 0x200A) ∨ (0x2028 ≤ r ∧ r ≤ 0x2029) ∨ r = 0x202F ∨ r = 0x205F ∨
      r = 0x3000)

/-- The method ss.SkipSpace with nlIsSpace = false (Scanln): skips blanks, stops
before the first non-blank rune, and fails on a newline. Returns the error, if
any, and the unread input. -/
def skipSpace : Nat → Bytes → Option GoError × Bytes
  | _, [] => (none, [])
  | 0, b :: t => (none, b :: t)
  | fuel + 1, b :: t =>
    let rw := decodeRune (b :: t)
    let rest := (b :: t).drop rw.2
    if rw.1 = 0x0D ∧ (decodeRune rest).1 = 0x0A then skipSpace fuel rest
    else if rw.1 = 0x0A then (some ⟨ascii "unexpected newline"⟩, rest)
    else if !fmtIsSpace rw.1 then (none, b :: t)
    else skipSpace fuel rest

/-- The reading loop of ss.token with the predicate notSpace: the runes up to
the first blank, re-encoded into the buffer, and the unread input. -/
def readToken : Nat → Bytes → Bytes × Bytes
  | _, [] => ([], [])
  | 0, b :: t => ([], b :: t)
  | fuel + 1, b :: t =>
    let rw := decodeRune (b :: t)
    if fmtIsSpace rw.1 then ([], b :: t)
    else
      let r := readToken fuel ((b :: t).drop rw.2)
      (encodeRune rw.1 ++ r.1, r.2)

/-- The closing loop of ss.doScan with nlIsEnd = true: only blanks may stand
between the last operand and the newline (or the end of input). -/
def expectNewline : Nat → Bytes → Option GoError × Bytes
  | _, [] => (none, [])
  | 0, b :: t => (none, b :: t)
  | fuel + 1, b :: t =>
    let rw := decodeRune (b :: t)
    let rest := (b :: t).drop rw.2
    if rw.1 = 0x0A then (none, rest)
    else if !fmtIsSpace rw.1 then (some ⟨ascii "expected newline"⟩, rest)
    else expectNewline fuel rest

/-- The call `fmt.Scanln(&str)` for a string operand, on the unread standard
input: convertString (SkipSpace, notEOF, token) and then the newline check.
Returns the word or the error, and the unread input. -/
def scanlnString (inp : Bytes) : Except GoError Bytes × Bytes :=
  match skipSpace inp.length inp with
  | (some e, rest) => (.error e, rest)
  | (none, rest) =>
    if rest.isEmpty then (.error ⟨ascii "EOF"⟩, rest)
    else
      match skipSpace rest.length rest with
      | (some e, rest1) => (.error e, rest1)
      | (none, rest1) =>
        let tk := readToken rest1.length rest1
        match expectNewline tk.2.length tk.2 with
        | (some e, rest2) => (.error e, rest2)
        | (none, rest2) => (.ok tk.1, rest2)

/-- The call `fmt.Scanln()` without operands: only the newline check. -/
def scanlnNone (inp : Bytes) : Option GoError × Bytes :=
  expectNewline inp.length inp

/-! ## The program: data model, environment and state -/

deriving instance DecidableEq for Except

/-- The struct Config of main.go. -/
structure Config where
  Server : Bytes
  Group : Bytes
  Username : Bytes
  Password : Bytes
  CiscoLogs : Bool
deriving DecidableEq, Repr

/-- The outcome of `os.Open(configPath)`, split the way loadConfig tests it. -/
inductive OpenResult where
  | file (content : Bytes)
  | notExist (err : GoError)
  | failure (err : GoError)
deriving DecidableEq, Repr

/-- One child process started by executeCommand. -/
structure Call where
  command : Bytes
  args : List Bytes
  input : Bytes
deriving DecidableEq, Repr

/-- Everything outside the program: the platform, the environment variables,
the file system, the JSON codec, the child processes (`run` is exec.Command
followed by cmd.Run: command, arguments and stdin text to combined output and
error) and the Unicode case tables above ASCII. -/
structure Env where
  goos : Bytes
  getenv : Bytes → Bytes
  join : Bytes → Bytes → Bytes
  mkdirAll : Bytes → Option GoError
  openFile : Bytes → OpenResult
  decode : Bytes → Except GoError Config
  create : Bytes → Option GoError
  encode : Bytes → Config → Option GoError
  run : Bytes → List Bytes → Bytes → Bytes × Option GoError
  lower : Nat → Nat
  orbit : Nat → Nat

/-- The observable state the program acts on: the unread standard input, the
chunks written to standard output (one per fmt.Print call), the child
processes started, the directories asked of MkdirAll, the files created or
truncated by os.Create and the configurations handed to the JSON encoder. -/
structure World where
  stdin : Bytes
  stdout : List Bytes
  calls : List Call
  dirs : List Bytes
  created : List Bytes
  encoded : List (Bytes × Config)
deriving DecidableEq, Repr

/-- The calls fmt.Print(s) and fmt.Printf of an already formatted text. -/
def print (w : World) (s : Bytes) : World :=
  { w with stdout := w.stdout ++ [s] }

/-- The call fmt.Println(s). -/
def println (w : World) (s : Bytes) : World :=
  print w (s ++ [0x0A])

/-- The call fmt.Scanln(&str) on the standard input of the world. -/
def scanln (w : World) : Except GoError Bytes × World :=
  let r := scanlnString w.stdin
  (r.1, { w with stdin := r.2 })

/-! ## The program: functions of main.go -/

/-- The directory `configDir` computed at the head of getConfigPath. -/
def configDir (env : Env) : Bytes :=
  if env.goos = ascii "windows" then env.join (env.getenv (ascii "APPDATA")) (ascii "easyconnect")
  else env.join (env.getenv (ascii "HOME")) (ascii ".easyconnect")

/-- The path returned by getConfigPath when the directory can be made. -/
def configPath (env : Env) : Bytes := env.join (configDir env) (ascii "config.json")

/-- Function getConfigPath of main.go. -/
def getConfigPath (env : Env) (w : World) : Except GoError Bytes × World :=
  let w1 := { w with dirs := w.dirs ++ [configDir env] }
  match env.mkdirAll (configDir env) with
  | some err => (.error err, w1)
  | none => (.ok (configPath env), w1)

/-- Function generateConfig of main.go. -/
def generateConfig (env : Env) (w : World) : Except GoError Config × World :=
  let w := println w (ascii "Configuration file not found. Let's create one.")
  let w := print w (ascii "Enter VPN server address: ")
  match scanln w with
  | (.error err, w) => (.error err, w)
  | (.ok server, w) =>
    let w := print w (ascii "Enter VPN group name(number): ")
    match scanln w with
    | (.error err, w) => (.error err, w)
    | (.ok group, w) =>
      let w := print w (ascii "Enter VPN username: ")
      match scanln w with
      | (.error err, w) => (.error err, w)
      | (.ok username, w) =>
        let w := print w (ascii "Enter VPN password: ")
        match scanln w with
        | (.error err, w) => (.error err, w)
        | (.ok password, w) =>
          let w := print w (ascii "Do you want to enable Cisco logs? (y/n): ")
          match scanln w with
          | (.error err, w) => (.error err, w)
          | (.ok answer, w) =>
            let ciscoLogs := toLower env.lower answer
            let config : Config :=
              { Server := server, Group := group, Username := username, Password := password,
                CiscoLogs := decide (ciscoLogs = ascii "y") }
            match getConfigPath env w with
            | (.error err, w) => (.error err, w)
            | (.ok configPath, w) =>
              match env.create configPath with
              | some err => (.error err, w)
              | none =>
                let w := { w with created := w.created ++ [configPath],
                                  encoded := w.encoded ++ [(configPath, config)] }
                match env.encode configPath config with
                | some err => (.error err, w)
                | none =>
                  let w := print w (ascii "Configuration saved to " ++ configPath ++ [0x0A])
                  (.ok config, w)

/-- Function loadConfig of main.go. -/
def loadConfig (env : Env) (w : World) : Except GoError Config × World :=
  match getConfigPath env w with
  | (.error err, w) => (.error err, w)
  | (.ok configPath, w) =>
    match env.openFile configPath with
    | .notExist _ => generateConfig env w
    | .failure err => (.error err, w)
    | .file content =>
      match env.decode content with
      | .error err => (.error err, w)
      | .ok config =>
        if config.Server = [] ∨ config.Group = [] ∨ config.Username = [] ∨ config.Password = [] then
          generateConfig env w
        else (.ok config, w)

/-- Function executeCommand of main.go. -/
def executeCommand (env : Env) (w : World) (command : Bytes) (args : List Bytes) (input : Bytes) :
    (Bytes × Option GoError) × World :=
  (env.run command args input,
    { w with calls := w.calls ++ [{ command := command, args := args, input := input }] })

/-- The choice of executable shared by checkVpnStatus, connectToVpn and
disconnectFromVpn. -/
def vpnCommand (env : Env) : Bytes :=
  if env.goos = ascii "windows" then ascii "vpncli.exe" else ascii "/opt/cisco/anyconnect/bin/vpn"

/-- The marker `>> state:` of the status line. -/
def stateMarker : Bytes := ascii ">> state:"

/-- The loop of checkVpnStatus over the lines of the output, with its early
`return true`. -/
def scanLines (orbit : Nat → Nat) : List Bytes → Bool
  | [] => false
  | line :: lines =>
    let line := trimSpace line
    if hasPrefix line stateMarker then
      let state := trimSpace (trimPrefix line stateMarker)
      if equalFold orbit state (ascii "Connected") then true
      else scanLines orbit lines
    else scanLines orbit lines

/-- Function checkVpnStatus of main.go. -/
def checkVpnStatus (env : Env) (w : World) : (Bool × Option GoError) × World :=
  match executeCommand env w (vpnCommand env) [ascii "status"] [] with
  | ((_, some err), w) => ((false, some err), w)
  | ((output, none), w) => ((scanLines env.orbit (split 0x0A output), none), w)

/-- The text built by `fmt.Sprintf` in connectToVpn, with the verbs `%s`
replaced by the fields. -/
def connectInput (config : Config) : Bytes :=
  config.Group ++ [0x0A] ++ config.Username ++ [0x0A] ++ config.Password ++ [0x0A, 0x79, 0x0A]

/-- Function connectToVpn of main.go. -/
def connectToVpn (env : Env) (config : Config) (w : World) : Option GoError × World :=
  let input := connectInput config
  match executeCommand env w (vpnCommand env) [ascii "-s", ascii "connect", config.Server] input with
  | ((output, err), w) =>
    let w := if config.CiscoLogs then println w output else w
    (err, w)

/-- Function disconnectFromVpn of main.go. -/
def disconnectFromVpn (env : Env) (config : Config) (w : World) : Option GoError × World :=
  match executeCommand env w (vpnCommand env) [ascii "disconnect"] [] with
  | ((output, err), w) =>
    let w := if config.CiscoLogs then println w output else w
    (err, w)

/-- Function containsIgnoreCase of main.go (never called). -/
def containsIgnoreCase (lower : Nat → Nat) (source substr : Bytes) : Bool :=
  contains (toLower lower source) (toLower lower substr)

/-- Function main of main.go: the exit code of the process and the final
world. `os.Exit(1)` ends the run at once; returning from main is exit code 0. -/
def main (env : Env) (w : World) : Nat × World :=
  match loadConfig env w with
  | (.error err, w) => (1, print w (ascii "Error loading config: " ++ err.msg ++ [0x0A]))
  | (.ok config, w) =>
    match checkVpnStatus env w with
    | ((_, some err), w) => (1, print w (ascii "Error checking VPN status: " ++ err.msg ++ [0x0A]))
    | ((isConnected, none), w) =>
      if isConnected then
        let w := println w (ascii "VPN is currently connected. Disconnecting...")
        match disconnectFromVpn env config w with
        | (some err, w) => (1, print w (ascii "Error disconnecting VPN: " ++ err.msg ++ [0x0A]))
        | (none, w) =>
          let w := println w (ascii "VPN disconnected successfully.")
          let w := println w (ascii "Press Enter to exit...")
          (0, { w with stdin := (scanlnNone w.stdin).2 })
      else
        let w := println w (ascii "VPN is not connected. Connecting...")
        match connectToVpn env config w with
        | (some err, w) => (1, print w (ascii "Error connecting VPN: " ++ err.msg ++ [0x0A]))
        | (none, w) =>
          let w := println w (ascii "VPN connected successfully.")
          let w := println w (ascii "Press Enter to exit...")
          (0, { w with stdin := (scanlnNone w.stdin).2 })

/-! ## Notions used to state the properties -/

/-- A rune that utf8 encodes as itself: at most MaxRune and no surrogate. -/
def validRune (r : Nat) : Prop := r ≤ MaxRune ∧ ¬ (0xD800 ≤ r ∧ r ≤ 0xDFFF)

/-- Equality of two byte strings ignoring ASCII case. -/
def equalIgnoringCase (s t : Bytes) : Prop := s.map lowerByte = t.map lowerByte

instance (s t : Bytes) : Decidable (equalIgnoringCase s t) := by
  unfold equalIgnoringCase; infer_instance

/-- A letter whose simple-folding orbit is its two ASCII cases (all letters but k and s). -/
def plainLetter (c : Nat) : Prop :=
  ((0x41 ≤ c ∧ c ≤ 0x5A) ∨ (0x61 ≤ c ∧ c ≤ 0x7A)) ∧ c ≠ 0x4B ∧ c ≠ 0x6B ∧ c ≠ 0x53 ∧ c ≠ 0x73

instance : DecidablePred plainLetter := by
  intro c; unfold plainLetter; infer_instance

/-- A line carries the marker when its whitespace-trimmed text begins with the
exact bytes `>> state:`. -/
def carriesMarker (line : Bytes) : Prop := stateMarker <+: trimSpace line

/-- The state value of a line: what follows the marker on the trimmed line,
trimmed again. -/
def stateValue (line : Bytes) : Bytes := trimSpace ((trimSpace line).drop stateMarker.length)

/-- A sample configuration. -/
def sampleConfig : Config :=
  { Server := ascii "vpn.example.org", Group := ascii "2", Username := ascii "alice",
    Password := ascii "secret", CiscoLogs := false }

/-- A sample environment on Linux: the status query answers `status`, every
other child process answers `other`; the configuration file opens as `opened`
and decodes to `decoded`; directories and files can be written; no rune above
ASCII has another case. -/
def sampleEnv (status other : Bytes × Option GoError) (opened : OpenResult)
    (decoded : Except GoError Config) : Env :=
  { goos := ascii "linux"
    getenv := fun _ => ascii "/home/alice"
    join := fun a b => a ++ ascii "/" ++ b
    mkdirAll := fun _ => none
    openFile := fun _ => opened
    decode := fun _ => decoded
    create := fun _ => none
    encode := fun _ _ => none
    run := fun _ args _ => if args = [ascii "status"] then status else other
    lower := fun r => r
    orbit := fun r => r }

/-- A sample environment with a valid configuration file, in which only the
answer to the status query varies. -/
def statusEnv (output : Bytes) (err : Option GoError) : Env :=
  sampleEnv (output, err) ([], none) (.file []) (.ok sampleConfig)

/-- A world with the given standard input and nothing written yet. -/
def freshWorld (stdin : Bytes) : World :=
  { stdin := stdin, stdout := [], calls := [], dirs := [], created := [], encoded := [] }

instance (line : Bytes) : Decidable (carriesMarker line) := by
  unfold carriesMarker; infer_instance

/-- The record of the status query among the child processes. -/
def statusCall (env : Env) : Call :=
  { command := vpnCommand env, args := [ascii "status"], input := [] }

/-- The record of the disconnect call. -/
def disconnectCall (env : Env) : Call :=
  { command := vpnCommand env, args := [ascii "disconnect"], input := [] }

/-- The record of the connect call for a configuration. -/
def connectCall (env : Env) (config : Config) : Call :=
  { command := vpnCommand env, args := [ascii "-s", ascii "connect", config.Server],
    input := config.Group ++ ascii "\n" ++ config.Username ++ ascii "\n" ++ config.Password ++
      ascii "\ny\n" }

/-- What connectToVpn and disconnectFromVpn print: the raw output of the child
process and a newline when the logging flag is set, nothing otherwise. -/
def logChunks (config : Config) (output : Bytes) : List Bytes :=
  if config.CiscoLogs then [output ++ ascii "\n"] else []

/-- The UTF-8 text of a sequence of runes. -/
def encodeRunes : List Nat → Bytes
  | [] => []
  | r :: rs => encodeRune r ++ encodeRunes rs

/-- White space in the sense of the trimming functions: the UTF-8 text of runes
that unicode.IsSpace accepts. -/
def Blank (ws : Bytes) : Prop := ∃ rs : List Nat, (∀ r ∈ rs, isSpace r = true) ∧ ws = encodeRunes rs

/-- A text that starts and ends with an ASCII byte that is not white space. -/
def Solid (core : Bytes) : Prop :=
  (∃ c0 t, core = c0 :: t ∧ c0 < 0x80 ∧ isSpace c0 = false) ∧
  (∃ init cl, core = init ++ [cl] ∧ cl < 0x80 ∧ isSpace cl = false)

instance : DecidablePred validRune := by
  intro r; unfold validRune; infer_instance

/-- A blank of an input line: the UTF-8 text of runes that fmt treats as space,
the newline excepted. -/
def IsPad (p : Bytes) : Prop :=
  ∃ rs : List Nat, (∀ r ∈ rs, fmtIsSpace r = true ∧ r ≠ 0x0A) ∧ p = encodeRunes rs

/-- A word of an input line: the non-empty UTF-8 text of runes none of which fmt
treats as space. -/
def IsWord (w : Bytes) : Prop :=
  ∃ rs : List Nat, rs ≠ [] ∧ (∀ r ∈ rs, validRune r ∧ fmtIsSpace r = false) ∧ w = encodeRunes rs

/-- The sample environment with a configuration whose logging flag is set, on a
disconnected VPN whose connect call fails while its output reads
"VPN connected successfully.". -/
def echoEnv : Env :=
  sampleEnv (ascii ">> state: Disconnected", none)
    (ascii "VPN connected successfully.", some ⟨ascii "exit status 1"⟩) (.file [])
    (.ok { sampleConfig with CiscoLogs := true })

/-! ## Theorems -/

/-! ### UTF-8 decoding and encoding -/

theorem decodeRune_ascii (b : Nat) (t : Bytes) (h : b < 0x80) : decodeRune (b :: t) = (b, 1) := by
  simp [decodeRune, h]

theorem decodeRune_width_pos (b : Nat) (t : Bytes) : 1 ≤ (decodeRune (b :: t)).2 := by
  rcases t with _ | ⟨b1, _ | ⟨b2, _ | ⟨b3, t3⟩⟩⟩ <;> simp only [decodeRune, RuneError] <;>
    split_ifs <;> simp

theorem decodeRune_width_le (s : Bytes) : (decodeRune s).2 ≤ s.length := by
  rcases s with _ | ⟨b, _ | ⟨b1, _ | ⟨b2, _ | ⟨b3, t3⟩⟩⟩⟩ <;> simp only [decodeRune, RuneError] <;>
    (try split_ifs) <;> simp

theorem encodeRune_ne_nil (r : Nat) : encodeRune r ≠ [] := by
  unfold encodeRune; split_ifs <;> simp

theorem accepts_iff (p0 b1 : Nat) : accepts p0 b1 = true ↔
    (if p0 = 0xE0 then 0xA0 else if p0 = 0xF0 then 0x90 else 0x80) ≤ b1 ∧
    b1 ≤ (if p0 = 0xED then 0x9F else if p0 = 0xF4 then 0x8F else 0xBF) := by
  simp [accepts, acceptLo, acceptHi]

theorem isCont_iff (b : Nat) : isCont b = true ↔ 0x80 ≤ b ∧ b ≤ 0xBF := by
  simp [isCont]

theorem decodeRune_ge (b : Nat) (t : Bytes) (h : 0x80 ≤ b) : 0x80 ≤ (decodeRune (b :: t)).1 := by
  rcases t with _ | ⟨b1, _ | ⟨b2, _ | ⟨b3, t3⟩⟩⟩ <;>
    simp only [decodeRune, RuneError, Bool.not_eq_true', Bool.not_eq_false'] <;>
    split_ifs <;> simp_all only [accepts_iff, isCont_iff, Bool.not_eq_false] <;>
    (try split_ifs at *) <;> omega

theorem decodeRune_encodeRune (r : Nat) (rest : Bytes) (h : validRune r) :
    decodeRune (encodeRune r ++ rest) = (r, (encodeRune r).length) := by
  unfold validRune MaxRune at h
  unfold encodeRune MaxRune
  split_ifs with h1 h2 h3 h4
  · simp [decodeRune]; omega
  · simp only [List.cons_append, List.nil_append, decodeRune]
    have e1 : ¬ (0xC0 + r / 64 < 0x80) := by omega
    have e2 : ¬ (0xC0 + r / 64 < 0xC2 ∨ 0xF4 < 0xC0 + r / 64) := by omega
    have e3 : (0xC0 + r / 64 < 0xE0) := by omega
    have e4 : accepts (0xC0 + r / 64) (0x80 + r % 64) = true := by
      rw [accepts_iff]; split_ifs <;> omega
    simp only [e1, e2, e3, e4, if_false, if_true, Bool.not_true, List.length_cons, List.length_nil]
    simp
    omega
  · omega
  · simp only [List.cons_append, List.nil_append, decodeRune]
    have e1 : ¬ (0xE0 + r / 4096 < 0x80) := by omega
    have e2 : ¬ (0xE0 + r / 4096 < 0xC2 ∨ 0xF4 < 0xE0 + r / 4096) := by omega
    have e3 : ¬ (0xE0 + r / 4096 < 0xE0) := by omega
    have e5 : (0xE0 + r / 4096 < 0xF0) := by omega
    have e4 : accepts (0xE0 + r / 4096) (0x80 + r / 64 % 64) = true := by
      rw [accepts_iff]; split_ifs <;> omega
    have e6 : isCont (0x80 + r % 64) = true := by rw [isCont_iff]; omega
    simp only [e1, e2, e3, e4, e5, e6, if_false, if_true, Bool.not_true, List.length_cons, List.length_nil]
    simp
    omega
  · simp only [List.cons_append, List.nil_append, decodeRune]
    have e1 : ¬ (0xF0 + r / 262144 < 0x80) := by omega
    have e2 : ¬ (0xF0 + r / 262144 < 0xC2 ∨ 0xF4 < 0xF0 + r / 262144) := by omega
    have e3 : ¬ (0xF0 + r / 262144 < 0xE0) := by omega
    have e5 : ¬ (0xF0 + r / 262144 < 0xF0) := by omega
    have e4 : accepts (0xF0 + r / 262144) (0x80 + r / 4096 % 64) = true := by
      rw [accepts_iff]; split_ifs <;> omega
    have e6 : isCont (0x80 + r / 64 % 64) = true := by rw [isCont_iff]; omega
    have e7 : isCont (0x80 + r % 64) = true := by rw [isCont_iff]; omega
    simp only [e1, e2, e3, e4, e5, e6, e7, if_false, if_true, Bool.not_true, List.length_cons, List.length_nil]
    simp
    omega

/-! ### EqualFold against a word of plain letters -/

theorem hasPrefix_iff (s p : Bytes) : hasPrefix s p = true ↔ p <+: s := by
  induction p generalizing s with
  | nil => simp [hasPrefix]
  | cons b p ih =>
    cases s with
    | nil => simp [hasPrefix]
    | cons a s =>
      simp only [hasPrefix, Bool.and_eq_true, decide_eq_true_eq, ih, List.cons_prefix_cons]
      constructor
      · rintro ⟨h1, h2⟩; exact ⟨h1.symm, h2⟩
      · rintro ⟨h1, h2⟩; exact ⟨h1.symm, h2⟩

theorem foldOrbit_plain (orbit : Nat → Nat) (lo hi n : Nat) (hl : plainLetter lo)
    (hh : 0x80 ≤ hi) : foldOrbit orbit lo hi (n + 2) (simpleFold orbit lo) = lo := by
  obtain ⟨hl1, hK, hk, hS, hs⟩ := hl
  have h1 : simpleFold orbit lo = asciiFold lo := by
    unfold simpleFold MaxRune; rw [if_neg (by omega), if_pos (by omega)]
  have h2 : asciiFold lo ≠ lo ∧ asciiFold lo < 0x80 ∧ asciiFold (asciiFold lo) = lo := by
    unfold asciiFold
    rcases hl1 with h | h
    · rw [if_pos h]
      have : ¬ (0x41 ≤ lo + 0x20 ∧ lo + 0x20 ≤ 0x5A) := by omega
      rw [if_neg this, if_neg (by omega), if_neg (by omega), if_pos (by omega)]
      omega
    · have : ¬ (0x41 ≤ lo ∧ lo ≤ 0x5A) := by omega
      rw [if_neg this, if_neg hk, if_neg hs, if_pos h]
      rw [if_pos (by omega)]
      omega
  obtain ⟨h3, h4, h5⟩ := h2
  have h6 : simpleFold orbit (asciiFold lo) = lo := by
    unfold simpleFold MaxRune; rw [if_neg (by omega), if_pos (by omega)]; exact h5
  rw [h1]
  unfold foldOrbit
  rw [if_pos ⟨h3, by omega⟩, h6]
  unfold foldOrbit
  rw [if_neg (by simp)]

theorem equalFoldRunes_nonascii (orbit : Nat → Nat) (fuel a t0 : Nat) (s t : Bytes)
    (ha : 0x80 ≤ a) (ht : plainLetter t0) :
    equalFoldRunes orbit (fuel + 1) (a :: s) (t0 :: t) = false := by
  have hge := decodeRune_ge a s ha
  have ht0 : t0 < 0x80 := by unfold plainLetter at ht; omega
  have hlt : t0 < (decodeRune (a :: s)).1 := by omega
  have horb := foldOrbit_plain orbit t0 (decodeRune (a :: s)).1 1114110 ht hge
  have hd := decodeRune_ascii t0 t ht0
  unfold equalFoldRunes
  simp only [List.isEmpty_cons, hd, Bool.false_eq_true, if_false, hlt, if_true, RuneSelf]
  have e : (1114112 : Nat) = 1114110 + 2 := rfl
  rw [if_neg (by omega), if_neg (by omega), e, horb, if_neg (by omega)]

theorem lowerByte_eq_iff (a t0 : Nat) (hne : ¬ t0 = a) :
    lowerByte a = lowerByte t0 ↔
      (0x41 ≤ (if t0 < a then t0 else a) ∧ (if t0 < a then t0 else a) ≤ 0x5A ∧
        (if t0 < a then a else t0) = (if t0 < a then t0 else a) + 0x20) := by
  unfold lowerByte
  split_ifs <;> omega

theorem equalFold_plain (orbit : Nat → Nat) (s t : Bytes) (ht : ∀ c ∈ t, plainLetter c) :
    equalFold orbit s t = true ↔ equalIgnoringCase s t := by
  unfold equalIgnoringCase
  induction t generalizing s with
  | nil => cases s <;> simp [equalFold]
  | cons t0 t ih =>
    have ht0 : plainLetter t0 := ht t0 (by simp)
    have ht' : ∀ c ∈ t, plainLetter c := fun c hc => ht c (by simp [hc])
    have ht0lt : t0 < 0x80 := by unfold plainLetter at ht0; omega
    cases s with
    | nil => simp [equalFold]
    | cons a s =>
      unfold equalFold
      simp only [RuneSelf, List.length_cons, List.map_cons, List.cons.injEq]
      by_cases ha : 0x80 ≤ a
      · rw [if_pos (Or.inl ha), equalFoldRunes_nonascii orbit _ a t0 s t ha ht0]
        have : lowerByte a ≠ lowerByte t0 := by
          unfold plainLetter at ht0
          unfold lowerByte
          split_ifs <;> omega
        simp [this]
      · rw [if_neg (by omega)]
        by_cases he : t0 = a
        · rw [if_pos he, ih s ht', he]; simp
        · rw [if_neg he]
          have hiff := lowerByte_eq_iff a t0 he
          by_cases hl : lowerByte a = lowerByte t0
          · rw [if_pos (hiff.mp hl), ih s ht']; simp [hl]
          · rw [if_neg (fun h => hl (hiff.mpr h))]; simp [hl]

theorem connected_plain : ∀ c ∈ ascii "Connected", plainLetter c := by
  decide

theorem equalFold_connected (orbit : Nat → Nat) (s : Bytes) :
    equalFold orbit s (ascii "Connected") = true ↔ equalIgnoringCase s (ascii "Connected") :=
  equalFold_plain orbit s _ connected_plain

/-! ### The scan over the status lines (C2, C3, C10) -/

theorem scanLines_iff (orbit : Nat → Nat) (lines : List Bytes) :
    scanLines orbit lines = true ↔
      ∃ line ∈ lines, carriesMarker line ∧ equalIgnoringCase (stateValue line) (ascii "Connected") := by
  induction lines with
  | nil => simp [scanLines]
  | cons line lines ih =>
    unfold scanLines
    simp only [List.mem_cons, exists_eq_or_imp]
    by_cases hp : hasPrefix (trimSpace line) stateMarker = true
    · have hc : carriesMarker line := (hasPrefix_iff _ _).mp hp
      have hv : trimSpace (trimPrefix (trimSpace line) stateMarker) = stateValue line := by
        unfold trimPrefix stateValue; rw [if_pos hp]
      rw [if_pos hp, hv]
      by_cases he : equalFold orbit (stateValue line) (ascii "Connected") = true
      · rw [if_pos he]
        simp [hc, (equalFold_connected orbit _).mp he]
      · rw [if_neg he, ih]
        have : ¬ equalIgnoringCase (stateValue line) (ascii "Connected") :=
          fun h => he ((equalFold_connected orbit _).mpr h)
        simp [this]
    · have hc : ¬ carriesMarker line := fun h => hp ((hasPrefix_iff _ _).mpr h)
      rw [if_neg hp, ih]
      simp [hc]

theorem checkVpnStatus_ok (env : Env) (w : World) (output : Bytes)
    (h : env.run (vpnCommand env) [ascii "status"] [] = (output, none)) :
    (checkVpnStatus env w).1 = (scanLines env.orbit (split 0x0A output), none) := by
  simp [checkVpnStatus, executeCommand, h]

/-- C10: the scan does not stop at the first marker line. For every successful
status output, checkVpnStatus returns no error, and returns true if and only if
some line of the output (split on "\n", trimmed) begins with `>> state:` and
has a trimmed remainder equal to "Connected" ignoring case; hence the result is
the same for any other successful output with the same lines in another order. -/
theorem checkVpnStatus_true_iff (env : Env) (w : World) (output : Bytes)
    (h : env.run (vpnCommand env) [ascii "status"] [] = (output, none)) :
    (checkVpnStatus env w).1.2 = none ∧
    ((checkVpnStatus env w).1.1 = true ↔
      ∃ line ∈ split 0x0A output,
        carriesMarker line ∧ equalIgnoringCase (stateValue line) (ascii "Connected")) ∧
    (∀ (env2 : Env) (w2 : World) (output2 : Bytes),
      env2.run (vpnCommand env2) [ascii "status"] [] = (output2, none) →
      (split 0x0A output2).Perm (split 0x0A output) →
      (checkVpnStatus env2 w2).1.1 = (checkVpnStatus env w).1.1) := by
  rw [checkVpnStatus_ok env w output h]
  refine ⟨rfl, scanLines_iff _ _, ?_⟩
  intro env2 w2 output2 h2 hperm
  rw [checkVpnStatus_ok env2 w2 output2 h2]
  show scanLines env2.orbit (split 0x0A output2) = scanLines env.orbit (split 0x0A output)
  rw [Bool.eq_iff_iff, scanLines_iff, scanLines_iff]
  constructor
  · rintro ⟨line, hm, hl⟩; exact ⟨line, hperm.mem_iff.mp hm, hl⟩
  · rintro ⟨line, hm, hl⟩; exact ⟨line, hperm.mem_iff.mpr hm, hl⟩

/-- C10 at a concrete output: a Disconnected line first (indented, with a
trailing "\r"), a Connected line later; the result is true, also with the two
lines in the other order. -/
theorem checkVpnStatus_true_iff_witness :
    (statusEnv (ascii "  >> state: Disconnected\r\n>> state: Connected") none).run
        (vpnCommand (statusEnv (ascii "  >> state: Disconnected\r\n>> state: Connected") none))
        [ascii "status"] [] = (ascii "  >> state: Disconnected\r\n>> state: Connected", none) ∧
    (checkVpnStatus (statusEnv (ascii "  >> state: Disconnected\r\n>> state: Connected") none)
        (freshWorld [])).1 = (true, none) ∧
    (checkVpnStatus (statusEnv (ascii ">> state: Connected\n  >> state: Disconnected\r") none)
        (freshWorld [])).1.1 =
      (checkVpnStatus (statusEnv (ascii "  >> state: Disconnected\r\n>> state: Connected") none)
        (freshWorld [])).1.1 :=
  ⟨by decide, by decide,
    (checkVpnStatus_true_iff (statusEnv (ascii "  >> state: Disconnected\r\n>> state: Connected") none)
      (freshWorld []) (ascii "  >> state: Disconnected\r\n>> state: Connected") (by decide)).2.2
      (statusEnv (ascii ">> state: Connected\n  >> state: Disconnected\r") none) (freshWorld [])
      (ascii ">> state: Connected\n  >> state: Disconnected\r") (by decide) (by decide)⟩

/-- C2: the marker is matched case-sensitively and its absence is not an error.
For every successful status output in which no whitespace-trimmed line begins
with the exact bytes `>> state:`, checkVpnStatus returns false and no error. -/
theorem checkVpnStatus_no_marker (env : Env) (w : World) (output : Bytes)
    (h : env.run (vpnCommand env) [ascii "status"] [] = (output, none))
    (hno : ∀ line ∈ split 0x0A output, ¬ stateMarker <+: trimSpace line) :
    (checkVpnStatus env w).1 = (false, none) := by
  rw [checkVpnStatus_ok env w output h]
  have : scanLines env.orbit (split 0x0A output) ≠ true := by
    rw [Ne, scanLines_iff]
    rintro ⟨line, hm, hc, _⟩
    exact hno line hm hc
  simp [this]

/-- C2 at the outputs `>> State: connected` (capital S) and the empty output:
both yield false without an error. -/
theorem checkVpnStatus_no_marker_witness :
    (checkVpnStatus (statusEnv (ascii ">> State: connected") none) (freshWorld [])).1 = (false, none) ∧
    (checkVpnStatus (statusEnv [] none) (freshWorld [])).1 = (false, none) :=
  ⟨checkVpnStatus_no_marker (statusEnv (ascii ">> State: connected") none) (freshWorld [])
      (ascii ">> State: connected") (by decide) (by decide),
    checkVpnStatus_no_marker (statusEnv [] none) (freshWorld []) [] (by decide) (by decide)⟩

/-- C3: any state value other than Connected yields false. For every successful
status output in which every line carrying the marker has a trimmed value that
is not equal to "Connected" ignoring case, checkVpnStatus returns false and no
error; the comparison is equality of the whole value. -/
theorem checkVpnStatus_other_state (env : Env) (w : World) (output : Bytes)
    (h : env.run (vpnCommand env) [ascii "status"] [] = (output, none))
    (hother : ∀ line ∈ split 0x0A output, stateMarker <+: trimSpace line →
      ¬ equalIgnoringCase (stateValue line) (ascii "Connected")) :
    (checkVpnStatus env w).1 = (false, none) := by
  rw [checkVpnStatus_ok env w output h]
  have : scanLines env.orbit (split 0x0A output) ≠ true := by
    rw [Ne, scanLines_iff]
    rintro ⟨line, hm, hc, he⟩
    exact hother line hm hc he
  simp [this]

/-- C3 at the outputs `>> state: Disconnected` and `>> state: Connecting`: both
yield false, although "Disconnected" contains "connected" (the unused
containsIgnoreCase would accept it). -/
theorem checkVpnStatus_other_state_witness :
    (checkVpnStatus (statusEnv (ascii ">> state: Disconnected") none) (freshWorld [])).1 = (false, none) ∧
    (checkVpnStatus (statusEnv (ascii ">> state: Connecting") none) (freshWorld [])).1 = (false, none) ∧
    containsIgnoreCase (fun r => r) (ascii "Disconnected") (ascii "Connected") = true :=
  ⟨checkVpnStatus_other_state (statusEnv (ascii ">> state: Disconnected") none) (freshWorld [])
      (ascii ">> state: Disconnected") (by decide) (by decide),
    checkVpnStatus_other_state (statusEnv (ascii ">> state: Connecting") none) (freshWorld [])
      (ascii ">> state: Connecting") (by decide) (by decide),
    by decide⟩

/-! ### The connect payload (C5) -/

theorem split_append_sep (sep : Nat) (a rest : Bytes) (h : sep ∉ a) :
    split sep (a ++ sep :: rest) = a :: split sep rest := by
  induction a with
  | nil => simp [split]
  | cons c a ih =>
    have hc : c ≠ sep := fun e => h (by simp [e])
    have ha : sep ∉ a := fun e => h (by simp [e])
    simp [split, hc, ih ha]

theorem split_no_sep (sep : Nat) (a : Bytes) (h : sep ∉ a) : split sep a = [a] := by
  induction a with
  | nil => simp [split]
  | cons c a ih =>
    have hc : c ≠ sep := fun e => h (by simp [e])
    have ha : sep ∉ a := fun e => h (by simp [e])
    simp [split, hc, ih ha]

/-- C5: round trip of the connect stdin payload. For group, username and
password without a newline byte, the stdin text handed to the connect call is
group, "\n", username, "\n", password, "\ny\n", and splitting it on "\n"
gives back group, username, password, "y" and the empty remainder. -/
theorem connect_payload_roundtrip (env : Env) (w : World) (config : Config)
    (hg : 0x0A ∉ config.Group) (hu : 0x0A ∉ config.Username) (hp : 0x0A ∉ config.Password) :
    (connectToVpn env config w).2.calls =
      w.calls ++ [{ command := vpnCommand env,
                    args := [ascii "-s", ascii "connect", config.Server],
                    input := config.Group ++ ascii "\n" ++ config.Username ++ ascii "\n" ++
                      config.Password ++ ascii "\ny\n" }] ∧
    split 0x0A (config.Group ++ ascii "\n" ++ config.Username ++ ascii "\n" ++
      config.Password ++ ascii "\ny\n") =
      [config.Group, config.Username, config.Password, ascii "y", []] := by
  have e1 : ascii "\n" = [0x0A] := by decide
  have e2 : ascii "\ny\n" = [0x0A, 0x79, 0x0A] := by decide
  have e3 : ascii "y" = [0x79] := by decide
  rw [e1, e2, e3]
  constructor
  · unfold connectToVpn executeCommand connectInput
    cases config.CiscoLogs <;> simp [println, print]
  · have : config.Group ++ [0x0A] ++ config.Username ++ [0x0A] ++ config.Password ++ [0x0A, 0x79, 0x0A]
        = config.Group ++ 0x0A :: (config.Username ++ 0x0A :: (config.Password ++ 0x0A :: [0x79, 0x0A])) := by
      simp
    rw [this, split_append_sep _ _ _ hg, split_append_sep _ _ _ hu, split_append_sep _ _ _ hp]
    simp [split]

/-- C5 at group "2", user "alice", password "secret". -/
theorem connect_payload_roundtrip_witness :
    split 0x0A (ascii "2\nalice\nsecret\ny\n") = [ascii "2", ascii "alice", ascii "secret", ascii "y", []] ∧
    (connectToVpn (statusEnv [] none) sampleConfig (freshWorld [])).2.calls =
      [{ command := ascii "/opt/cisco/anyconnect/bin/vpn",
         args := [ascii "-s", ascii "connect", ascii "vpn.example.org"],
         input := ascii "2\nalice\nsecret\ny\n" }] :=
  ⟨(connect_payload_roundtrip (statusEnv [] none) (freshWorld []) sampleConfig
      (by decide) (by decide) (by decide)).2,
   (connect_payload_roundtrip (statusEnv [] none) (freshWorld []) sampleConfig
      (by decide) (by decide) (by decide)).1⟩

/-! ### Scanln never returns an empty word -/

theorem drop_width_length (b : Nat) (t : Bytes) :
    ((b :: t).drop (decodeRune (b :: t)).2).length ≤ t.length := by
  have := decodeRune_width_pos b t
  simp only [List.length_drop, List.length_cons]
  omega

theorem skipSpace_stops (fuel : Nat) (inp rest : Bytes) (hf : inp.length ≤ fuel)
    (h : skipSpace fuel inp = (none, rest)) :
    rest = [] ∨ fmtIsSpace (decodeRune rest).1 = false := by
  induction fuel generalizing inp with
  | zero =>
    cases inp with
    | nil => simp [skipSpace] at h; exact Or.inl h
    | cons b t => simp at hf
  | succ fuel ih =>
    cases inp with
    | nil => simp [skipSpace] at h; exact Or.inl h
    | cons b t =>
      have hlen := drop_width_length b t
      simp only [List.length_cons] at hf
      unfold skipSpace at h
      simp only [] at h
      split_ifs at h with h1 h2 h3
      · exact ih _ (by omega) h
      · simp at h
      · simp only [Prod.mk.injEq, true_and] at h
        subst h
        right
        simpa using h3
      · exact ih _ (by omega) h

theorem readToken_ne_nil (fuel : Nat) (b : Nat) (t : Bytes)
    (h : fmtIsSpace (decodeRune (b :: t)).1 = false) :
    (readToken (fuel + 1) (b :: t)).1 ≠ [] := by
  unfold readToken
  simp only [h, Bool.false_eq_true, if_false]
  intro hc
  have := encodeRune_ne_nil (decodeRune (b :: t)).1
  simp_all

theorem scanlnString_ok_ne_nil (inp tok rest : Bytes) (h : scanlnString inp = (.ok tok, rest)) :
    tok ≠ [] := by
  unfold scanlnString at h
  split at h
  · simp at h
  · rename_i rest0 h0
    split_ifs at h with he
    · simp at h
    · split at h
      · simp at h
      · rename_i rest1 h1
        have hs := skipSpace_stops _ _ _ (le_refl _) h1
        simp only [] at h
        split at h
        · simp at h
        · simp only [Prod.mk.injEq, Except.ok.injEq] at h
          rw [← h.1]
          cases rest1 with
          | nil =>
            exfalso
            cases rest0 with
            | nil => simp at he
            | cons b t =>
              have h0' := skipSpace_stops _ _ _ (le_refl _) h0
              rcases h0' with h0' | h0'
              · simp at h0'
              · unfold skipSpace at h1
                simp only [List.length_cons] at h1
                simp only [h0', Bool.false_eq_true, Bool.not_false, if_true] at h1
                split_ifs at h1 with hr
                · rw [hr.1] at h0'
                  exact absurd h0' (by decide)
                · simp at h1
                · simp at h1
          | cons b t =>
            rcases hs with hs | hs
            · simp at hs
            · exact readToken_ne_nil _ b t hs

/-! ### What generateConfig changes -/

theorem scanln_ok_ne_nil (w w1 : World) (tok : Bytes) (h : scanln w = (.ok tok, w1)) : tok ≠ [] := by
  unfold scanln at h
  simp only [Prod.mk.injEq] at h
  exact scanlnString_ok_ne_nil w.stdin tok (scanlnString w.stdin).2 (Prod.ext h.1 rfl)

theorem scanln_stdout (w w1 : World) (r : Except GoError Bytes) (h : scanln w = (r, w1)) :
    w1.stdout = w.stdout ∧ w1.calls = w.calls := by
  unfold scanln at h
  simp only [Prod.mk.injEq] at h
  rw [← h.2]
  exact ⟨rfl, rfl⟩

theorem generateConfig_frame (env : Env) (w w' : World) (r : Except GoError Config)
    (h : generateConfig env w = (r, w')) :
    w'.calls = w.calls ∧ w.stdout.length < w'.stdout.length := by
  unfold generateConfig at h
  simp only [print, println, getConfigPath] at h
  split at h
  · rename_i err w1 h1
    have f1 := scanln_stdout _ _ _ h1
    simp only [Prod.mk.injEq] at h
    rw [← h.2, f1.1, f1.2]
    simp
  · rename_i server w1 h1
    have f1 := scanln_stdout _ _ _ h1
    split at h
    · rename_i err w2 h2
      have f2 := scanln_stdout _ _ _ h2
      simp only [Prod.mk.injEq] at h
      rw [← h.2, f2.1, f2.2, f1.1, f1.2]
      simp
    · rename_i group w2 h2
      have f2 := scanln_stdout _ _ _ h2
      split at h
      · rename_i err w3 h3
        have f3 := scanln_stdout _ _ _ h3
        simp only [Prod.mk.injEq] at h
        rw [← h.2, f3.1, f3.2, f2.1, f2.2, f1.1, f1.2]
        simp
      · rename_i username w3 h3
        have f3 := scanln_stdout _ _ _ h3
        split at h
        · rename_i err w4 h4
          have f4 := scanln_stdout _ _ _ h4
          simp only [Prod.mk.injEq] at h
          rw [← h.2, f4.1, f4.2, f3.1, f3.2, f2.1, f2.2, f1.1, f1.2]
          simp
        · rename_i password w4 h4
          have f4 := scanln_stdout _ _ _ h4
          split at h
          · rename_i err w5 h5
            have f5 := scanln_stdout _ _ _ h5
            simp only [Prod.mk.injEq] at h
            rw [← h.2, f5.1, f5.2, f4.1, f4.2, f3.1, f3.2, f2.1, f2.2, f1.1, f1.2]
            simp
          · rename_i answer w5 h5
            have f5 := scanln_stdout _ _ _ h5
            simp only [] at f1 f2 f3 f4 f5
            cases hm : env.mkdirAll (configDir env) <;> simp only [hm] at h
            · cases hc : env.create (configPath env) <;> simp only [hc] at h
              · cases he : env.encode (configPath env)
                    { Server := server, Group := group, Username := username, Password := password,
                      CiscoLogs := decide (toLower env.lower answer = ascii "y") } <;>
                  simp only [he] at h <;> simp only [Prod.mk.injEq] at h <;>
                  rw [← h.2] <;> simp only [f5.1, f5.2, f4.1, f4.2, f3.1, f3.2, f2.1, f2.2, f1.1, f1.2] <;>
                  simp
              · simp only [Prod.mk.injEq] at h
                rw [← h.2]; simp only [f5.1, f5.2, f4.1, f4.2, f3.1, f3.2, f2.1, f2.2, f1.1, f1.2]
                simp
            · simp only [Prod.mk.injEq] at h
              rw [← h.2]; simp only [f5.1, f5.2, f4.1, f4.2, f3.1, f3.2, f2.1, f2.2, f1.1, f1.2]
              simp

theorem generateConfig_inv (env : Env) (w w' : World) (c : Config)
    (h : generateConfig env w = (.ok c, w')) :
    c.Server ≠ [] ∧ c.Group ≠ [] ∧ c.Username ≠ [] ∧ c.Password ≠ [] ∧
    ∃ pre, w'.stdout = pre ++ [ascii "Configuration saved to " ++ configPath env ++ [0x0A]] := by
  unfold generateConfig at h
  simp only [print, println, getConfigPath] at h
  split at h
  · simp at h
  · rename_i server w1 h1
    split at h
    · simp at h
    · rename_i group w2 h2
      split at h
      · simp at h
      · rename_i username w3 h3
        split at h
        · simp at h
        · rename_i password w4 h4
          split at h
          · simp at h
          · rename_i answer w5 h5
            have n1 := scanln_ok_ne_nil _ _ _ h1
            have n2 := scanln_ok_ne_nil _ _ _ h2
            have n3 := scanln_ok_ne_nil _ _ _ h3
            have n4 := scanln_ok_ne_nil _ _ _ h4
            cases hm : env.mkdirAll (configDir env) <;> simp only [hm] at h
            · cases hc : env.create (configPath env) <;> simp only [hc] at h
              · cases he : env.encode (configPath env)
                    { Server := server, Group := group, Username := username, Password := password,
                      CiscoLogs := decide (toLower env.lower answer = ascii "y") } <;>
                  simp only [he] at h <;> simp only [Prod.mk.injEq] at h
                · obtain ⟨hc1, hw⟩ := h
                  simp only [Except.ok.injEq] at hc1
                  subst hc1
                  rw [← hw]
                  exact ⟨n1, n2, n3, n4, _, rfl⟩
                · simp at h
              · simp at h
            · simp at h

/-! ### loadConfig on a parsed file (C6) -/

theorem loadConfig_parsed (env : Env) (w : World) (content : Bytes) (config : Config)
    (hdir : env.mkdirAll (configDir env) = none)
    (hopen : env.openFile (configPath env) = .file content)
    (hdec : env.decode content = .ok config) :
    loadConfig env w =
      if config.Server = [] ∨ config.Group = [] ∨ config.Username = [] ∨ config.Password = [] then
        generateConfig env { w with dirs := w.dirs ++ [configDir env] }
      else (.ok config, { w with dirs := w.dirs ++ [configDir env] }) := by
  unfold loadConfig getConfigPath
  simp only [hdir, hopen, hdec]

theorem loadConfig_frame (env : Env) (w w' : World) (r : Except GoError Config)
    (h : loadConfig env w = (r, w')) :
    w'.calls = w.calls ∧
    (w'.stdout = w.stdout ∨
      (∀ c, r = .ok c → ∃ pre, w'.stdout =
        pre ++ [ascii "Configuration saved to " ++ configPath env ++ [0x0A]])) := by
  unfold loadConfig getConfigPath at h
  cases hm : env.mkdirAll (configDir env) <;> simp only [hm] at h
  · cases ho : env.openFile (configPath env) <;> simp only [ho] at h
    · rename_i content
      cases hd : env.decode content <;> simp only [hd] at h
      · simp only [Prod.mk.injEq] at h
        rw [← h.2]; simp
      · split_ifs at h
        · have f := generateConfig_frame _ _ _ _ h
          refine ⟨f.1, Or.inr ?_⟩
          intro c hc
          subst hc
          exact (generateConfig_inv _ _ _ _ h).2.2.2.2
        · simp only [Prod.mk.injEq] at h
          rw [← h.2]; simp
    · have f := generateConfig_frame _ _ _ _ h
      refine ⟨f.1, Or.inr ?_⟩
      intro c hc
      subst hc
      exact (generateConfig_inv _ _ _ _ h).2.2.2.2
    · simp only [Prod.mk.injEq] at h
      rw [← h.2]; simp
  · simp only [Prod.mk.injEq] at h
    rw [← h.2]; simp

/-- C6: config validation decides between return and regeneration. For every
configuration parsed from an existing file, loadConfig returns exactly that
configuration, with nothing printed or read, if and only if server, group,
username and password are all non-empty; otherwise its result is the result of
generateConfig, which is never the parsed configuration. The logging flag
`flag` is arbitrary. -/
theorem loadConfig_valid_iff (env : Env) (w : World) (content server group username password : Bytes)
    (flag : Bool)
    (hdir : env.mkdirAll (configDir env) = none)
    (hopen : env.openFile (configPath env) = .file content)
    (hdec : env.decode content = .ok
      { Server := server, Group := group, Username := username, Password := password,
        CiscoLogs := flag }) :
    (loadConfig env w =
        (.ok { Server := server, Group := group, Username := username, Password := password,
               CiscoLogs := flag },
          { w with dirs := w.dirs ++ [configDir env] }) ↔
      (server ≠ [] ∧ group ≠ [] ∧ username ≠ [] ∧ password ≠ [])) ∧
    (¬ (server ≠ [] ∧ group ≠ [] ∧ username ≠ [] ∧ password ≠ []) →
      loadConfig env w = generateConfig env { w with dirs := w.dirs ++ [configDir env] } ∧
      (loadConfig env w).1 ≠
        .ok { Server := server, Group := group, Username := username, Password := password,
              CiscoLogs := flag }) := by
  have hl := loadConfig_parsed env w content _ hdir hopen hdec
  simp only [] at hl
  by_cases hv : server ≠ [] ∧ group ≠ [] ∧ username ≠ [] ∧ password ≠ []
  · have hc : ¬ (server = [] ∨ group = [] ∨ username = [] ∨ password = []) := by
      rintro (h | h | h | h) <;> simp_all
    rw [if_neg hc] at hl
    exact ⟨⟨fun _ => hv, fun _ => hl⟩, fun h => absurd hv h⟩
  · have hc : server = [] ∨ group = [] ∨ username = [] ∨ password = [] := by
      by_contra hcon
      apply hv
      simp only [not_or] at hcon
      exact hcon
    rw [if_pos hc] at hl
    have hne : (loadConfig env w).1 ≠
        .ok { Server := server, Group := group, Username := username, Password := password,
              CiscoLogs := flag } := by
      intro heq
      rw [hl] at heq
      have hi := generateConfig_inv env _ _ _ (Prod.ext heq rfl)
      simp only [] at hi
      rcases hc with h | h | h | h
      · exact hi.1 h
      · exact hi.2.1 h
      · exact hi.2.2.1 h
      · exact hi.2.2.2.1 h
    refine ⟨⟨fun h => ?_, fun h => absurd h hv⟩, fun _ => ⟨hl, hne⟩⟩
    exfalso
    apply hne
    rw [h]

/-- C6 on a valid file (returned unchanged, nothing printed) and on a file
whose password is empty while the logging flag is set (regenerated from the
answers on standard input). -/
theorem loadConfig_valid_iff_witness :
    loadConfig (statusEnv [] none) (freshWorld (ascii "x\n")) =
      (.ok sampleConfig, { freshWorld (ascii "x\n") with dirs := [ascii "/home/alice/.easyconnect"] }) ∧
    (loadConfig (sampleEnv ([], none) ([], none) (.file [])
        (.ok { Server := ascii "s", Group := ascii "g", Username := ascii "u", Password := [],
               CiscoLogs := true }))
      (freshWorld (ascii "srv\ngrp\nusr\npwd\nn\n"))).1 =
      .ok { Server := ascii "srv", Group := ascii "grp", Username := ascii "usr",
            Password := ascii "pwd", CiscoLogs := false } :=
  ⟨(loadConfig_valid_iff (statusEnv [] none) (freshWorld (ascii "x\n")) []
      (ascii "vpn.example.org") (ascii "2") (ascii "alice") (ascii "secret") false
      (by decide) (by decide) (by decide)).1.mpr (by decide),
   by decide⟩

/-! ### Parse errors and status errors (C9, C4) -/

/-- C9: malformed configuration content is propagated, not repaired. When the
file opens but does not parse, loadConfig returns the parse error and changes
nothing but the directory request (nothing printed, nothing read, no file
created or encoded), and main prints "Error loading config: ..." and exits
with code 1 without any child process. -/
theorem loadConfig_parse_error (env : Env) (w : World) (content : Bytes) (err : GoError)
    (hdir : env.mkdirAll (configDir env) = none)
    (hopen : env.openFile (configPath env) = .file content)
    (hdec : env.decode content = .error err) :
    loadConfig env w = (.error err, { w with dirs := w.dirs ++ [configDir env] }) ∧
    main env w = (1, { w with dirs := w.dirs ++ [configDir env],
                              stdout := w.stdout ++
                                [ascii "Error loading config: " ++ err.msg ++ ascii "\n"] }) := by
  have hl : loadConfig env w = (.error err, { w with dirs := w.dirs ++ [configDir env] }) := by
    unfold loadConfig getConfigPath
    simp only [hdir, hopen, hdec]
  refine ⟨hl, ?_⟩
  unfold main
  rw [hl]
  rfl

/-- C9 on a file whose content the decoder rejects. -/
theorem loadConfig_parse_error_witness :
    (main (sampleEnv ([], none) ([], none) (.file (ascii "not json"))
        (.error ⟨ascii "invalid character"⟩)) (freshWorld (ascii "a\nb\nc\nd\ny\n"))) =
      (1, { freshWorld (ascii "a\nb\nc\nd\ny\n") with
              dirs := [ascii "/home/alice/.easyconnect"],
              stdout := [ascii "Error loading config: invalid character\n"] }) :=
  (loadConfig_parse_error (sampleEnv ([], none) ([], none) (.file (ascii "not json"))
      (.error ⟨ascii "invalid character"⟩)) (freshWorld (ascii "a\nb\nc\nd\ny\n"))
      (ascii "not json") ⟨ascii "invalid character"⟩ (by decide) (by decide) (by decide)).2

theorem checkVpnStatus_eq (env : Env) (w : World) :
    checkVpnStatus env w =
      (match env.run (vpnCommand env) [ascii "status"] [] with
        | (_, some err) => (false, some err)
        | (output, none) => (scanLines env.orbit (split 0x0A output), none),
       { w with calls := w.calls ++ [statusCall env] }) := by
  unfold checkVpnStatus executeCommand statusCall
  split <;> rename_i h <;> simp only [Prod.mk.injEq] at h <;> obtain ⟨h1, h2⟩ := h <;>
    rw [h1] <;> rw [← h2]

/-- C4: a failed status call is an error, never a default. When the status call
returns an error, checkVpnStatus returns that error whatever the captured
output, and main (after a successful loadConfig, which starts no child process
and leaves standard output untouched or ending with the line "Configuration
saved to ...") prints "Error checking VPN status: ..." as its next chunk, exits
with code 1, and the status query is the only child process. -/
theorem status_failure (env : Env) (w w1 : World) (config : Config) (output : Bytes)
    (err : GoError)
    (hload : loadConfig env w = (.ok config, w1))
    (hrun : env.run (vpnCommand env) [ascii "status"] [] = (output, some err)) :
    (checkVpnStatus env w1).1 = (false, some err) ∧
    main env w = (1, { w1 with calls := w.calls ++ [statusCall env],
                               stdout := w1.stdout ++
                                 [ascii "Error checking VPN status: " ++ err.msg ++ ascii "\n"] }) ∧
    (w1.stdout = w.stdout ∨
      ∃ pre, w1.stdout = pre ++ [ascii "Configuration saved to " ++ configPath env ++ ascii "\n"]) := by
  have hf := loadConfig_frame env w w1 _ hload
  have hc := checkVpnStatus_eq env w1
  rw [hrun] at hc
  simp only [] at hc
  refine ⟨by rw [hc], ?_, ?_⟩
  · unfold main
    rw [hload]
    simp only []
    rw [hc]
    simp only [print, hf.1]
    rfl
  · rcases hf.2 with h | h
    · exact Or.inl h
    · exact Or.inr (h config rfl)

/-- C4 on a status call that fails although its output holds
`>> state: Connected`. -/
theorem status_failure_witness :
    main (statusEnv (ascii ">> state: Connected") (some ⟨ascii "exit status 1"⟩)) (freshWorld []) =
      (1, { freshWorld [] with
              dirs := [ascii "/home/alice/.easyconnect"],
              calls := [statusCall (statusEnv (ascii ">> state: Connected")
                (some ⟨ascii "exit status 1"⟩))],
              stdout := [ascii "Error checking VPN status: exit status 1\n"] }) :=
  (status_failure (statusEnv (ascii ">> state: Connected") (some ⟨ascii "exit status 1"⟩))
    (freshWorld []) { freshWorld [] with dirs := [ascii "/home/alice/.easyconnect"] }
    sampleConfig (ascii ">> state: Connected") ⟨ascii "exit status 1"⟩ (by decide) (by decide)).2.1

/-! ### The dispatch of main (C8) -/

theorem disconnectFromVpn_eq (env : Env) (config : Config) (w : World) :
    disconnectFromVpn env config w =
      ((env.run (vpnCommand env) [ascii "disconnect"] []).2,
       { w with calls := w.calls ++ [disconnectCall env],
                stdout := w.stdout ++
                  logChunks config (env.run (vpnCommand env) [ascii "disconnect"] []).1 }) := by
  unfold disconnectFromVpn executeCommand logChunks disconnectCall
  cases config.CiscoLogs
  · simp [println, print]
  · simp [println, print]; rfl

theorem connectToVpn_eq (env : Env) (config : Config) (w : World) :
    connectToVpn env config w =
      ((env.run (vpnCommand env) [ascii "-s", ascii "connect", config.Server]
          (connectCall env config).input).2,
       { w with calls := w.calls ++ [connectCall env config],
                stdout := w.stdout ++
                  logChunks config (env.run (vpnCommand env)
                    [ascii "-s", ascii "connect", config.Server] (connectCall env config).input).1 }) := by
  have e : (connectCall env config).input = connectInput config := by
    unfold connectCall connectInput
    have e1 : ascii "\n" = [0x0A] := by decide
    have e2 : ascii "\ny\n" = [0x0A, 0x79, 0x0A] := by decide
    simp only [e1, e2]
  rw [e]
  unfold connectToVpn executeCommand logChunks connectCall
  have e1 : ascii "\n" = [0x0A] := by decide
  have e2 : ascii "\ny\n" = [0x0A, 0x79, 0x0A] := by decide
  cases config.CiscoLogs <;> simp [println, print, connectInput, e1, e2]

/-- C8 (amended): the two-way dispatch of main. After a successful loadConfig
and a successful status query main starts exactly one further child process:
`disconnect` with empty stdin when the status is connected, `-s connect
<server>` with the group/username/password/y payload otherwise. After the
progress line it prints the raw output of that process when the logging flag
is set; then, when the process succeeded, its success message and the exit
prompt, ending with exit code 0, and when the process failed, only the error
line, ending with exit code 1. -/
theorem main_dispatch (env : Env) (w w1 : World) (config : Config) (output : Bytes)
    (hload : loadConfig env w = (.ok config, w1))
    (hrun : env.run (vpnCommand env) [ascii "status"] [] = (output, none)) :
    ((checkVpnStatus env w1).1.1 = true →
      ∀ (out2 : Bytes),
        (env.run (vpnCommand env) [ascii "disconnect"] [] = (out2, none) →
          main env w = (0, { w1 with
            stdin := (scanlnNone w1.stdin).2,
            calls := w.calls ++ [statusCall env, disconnectCall env],
            stdout := w1.stdout ++ [ascii "VPN is currently connected. Disconnecting...\n"] ++
              logChunks config out2 ++
              [ascii "VPN disconnected successfully.\n", ascii "Press Enter to exit...\n"] })) ∧
        (∀ err, env.run (vpnCommand env) [ascii "disconnect"] [] = (out2, some err) →
          main env w = (1, { w1 with
            calls := w.calls ++ [statusCall env, disconnectCall env],
            stdout := w1.stdout ++ [ascii "VPN is currently connected. Disconnecting...\n"] ++
              logChunks config out2 ++
              [ascii "Error disconnecting VPN: " ++ err.msg ++ ascii "\n"] }))) ∧
    ((checkVpnStatus env w1).1.1 = false →
      ∀ (out2 : Bytes),
        (env.run (vpnCommand env) [ascii "-s", ascii "connect", config.Server]
            (connectCall env config).input = (out2, none) →
          main env w = (0, { w1 with
            stdin := (scanlnNone w1.stdin).2,
            calls := w.calls ++ [statusCall env, connectCall env config],
            stdout := w1.stdout ++ [ascii "VPN is not connected. Connecting...\n"] ++
              logChunks config out2 ++
              [ascii "VPN connected successfully.\n", ascii "Press Enter to exit...\n"] })) ∧
        (∀ err, env.run (vpnCommand env) [ascii "-s", ascii "connect", config.Server]
            (connectCall env config).input = (out2, some err) →
          main env w = (1, { w1 with
            calls := w.calls ++ [statusCall env, connectCall env config],
            stdout := w1.stdout ++ [ascii "VPN is not connected. Connecting...\n"] ++
              logChunks config out2 ++
              [ascii "Error connecting VPN: " ++ err.msg ++ ascii "\n"] }))) := by
  have hf := (loadConfig_frame env w w1 _ hload).1
  have hc := checkVpnStatus_eq env w1
  rw [hrun] at hc
  simp only [] at hc
  have hmain : main env w =
      if scanLines env.orbit (split 0x0A output) = true then
        (match disconnectFromVpn env config
            (println { w1 with calls := w1.calls ++ [statusCall env] }
              (ascii "VPN is currently connected. Disconnecting...")) with
          | (some err, w) => (1, print w (ascii "Error disconnecting VPN: " ++ err.msg ++ [0x0A]))
          | (none, w) =>
            (0, { println (println w (ascii "VPN disconnected successfully."))
                    (ascii "Press Enter to exit...") with
                  stdin := (scanlnNone w.stdin).2 }))
      else
        (match connectToVpn env config
            (println { w1 with calls := w1.calls ++ [statusCall env] }
              (ascii "VPN is not connected. Connecting...")) with
          | (some err, w) => (1, print w (ascii "Error connecting VPN: " ++ err.msg ++ [0x0A]))
          | (none, w) =>
            (0, { println (println w (ascii "VPN connected successfully."))
                    (ascii "Press Enter to exit...") with
                  stdin := (scanlnNone w.stdin).2 })) := by
    unfold main
    rw [hload]
    simp only []
    rw [hc]
    simp only []
    split_ifs <;> rfl
  rw [hc]
  simp only []
  constructor
  · intro hconn out2
    rw [hmain, if_pos hconn, disconnectFromVpn_eq]
    constructor
    · intro h2
      rw [h2]
      simp only [println, print, hf, List.append_assoc, List.singleton_append]
      rfl
    · intro err h2
      rw [h2]
      simp only [println, print, hf, List.append_assoc, List.singleton_append]
      rfl
  · intro hconn out2
    have hn : ¬ scanLines env.orbit (split 0x0A output) = true := by simp [hconn]
    rw [hmain, if_neg hn, connectToVpn_eq]
    constructor
    · intro h2
      rw [h2]
      simp only [println, print, hf, List.append_assoc, List.singleton_append]
      rfl
    · intro err h2
      rw [h2]
      simp only [println, print, hf, List.append_assoc, List.singleton_append]
      rfl

/-! ### The last rune of a text -/

theorem isSpace_valid (r : Nat) (h : isSpace r = true) : validRune r := by
  unfold isSpace at h
  unfold validRune MaxRune
  split_ifs at h <;> simp only [decide_eq_true_eq] at h <;> omega

theorem isSpace_ascii (r : Nat) (h : r < 0x80) : isSpace r = asciiSpace r := by
  unfold isSpace asciiSpace
  rw [if_pos (by omega)]
  have : ¬ r = 0x85 := by omega
  have : ¬ r = 0xA0 := by omega
  simp [*]

theorem encodeRune_ascii (r : Nat) (h : r < 0x80) : encodeRune r = [r] := by
  unfold encodeRune; rw [if_pos (by omega)]

/-- The shape of a multi-byte encoding: a lead byte that starts a rune, then
one to three continuation bytes. -/
theorem encodeRune_shape (r : Nat) (hv : validRune r) (h : 0x80 ≤ r) :
    ∃ b0 tl, encodeRune r = b0 :: tl ∧ 0x80 ≤ b0 ∧ runeStart b0 = true ∧ tl ≠ [] ∧
      tl.length ≤ 3 ∧ ∀ b ∈ tl, 0x80 ≤ b ∧ runeStart b = false := by
  unfold validRune MaxRune at hv
  unfold encodeRune MaxRune
  split_ifs with h1 h2 h3 h4
  · omega
  · refine ⟨_, _, rfl, by omega, ?_, by simp, by simp, ?_⟩
    · simp only [runeStart, decide_eq_true_eq]; omega
    · intro b hb
      simp only [List.mem_singleton] at hb
      subst hb
      simp only [runeStart, decide_eq_false_iff_not, not_not]; omega
  · omega
  · refine ⟨_, _, rfl, by omega, ?_, by simp, by simp, ?_⟩
    · simp only [runeStart, decide_eq_true_eq]; omega
    · intro b hb
      simp only [List.mem_cons, List.mem_singleton, List.not_mem_nil, or_false] at hb
      rcases hb with hb | hb <;> subst hb <;>
        simp only [runeStart, decide_eq_false_iff_not, not_not] <;> omega
  · refine ⟨_, _, rfl, by omega, ?_, by simp, by simp, ?_⟩
    · simp only [runeStart, decide_eq_true_eq]; omega
    · intro b hb
      simp only [List.mem_cons, List.mem_singleton, List.not_mem_nil, or_false] at hb
      rcases hb with hb | hb | hb <;> subst hb <;>
        simp only [runeStart, decide_eq_false_iff_not, not_not] <;> omega

theorem getD_append_at (pre l : Bytes) (k : Nat) :
    (pre ++ l).getD (pre.length + k) 0 = l.getD k 0 := by
  induction pre with
  | nil => simp
  | cons a pre ih =>
    have : (a :: pre).length + k = (pre.length + k) + 1 := by simp; omega
    rw [List.cons_append, this, List.getD_cons_succ]
    exact ih

theorem lastStart_append (pre tl : Bytes) (b0 lim m : Nat) (hlim : lim ≤ pre.length)
    (hb0 : runeStart b0 = true) (htl : ∀ b ∈ tl, runeStart b = false) (hm : m ≤ tl.length) :
    lastStart (pre ++ b0 :: tl) lim (pre.length + m + 1) = pre.length := by
  induction m with
  | zero =>
    unfold lastStart
    have : (pre ++ b0 :: tl).getD pre.length 0 = b0 := by
      have := getD_append_at pre (b0 :: tl) 0
      simpa using this
    rw [if_neg (by omega), this, if_pos hb0]
  | succ m ih =>
    unfold lastStart
    have hlt : m < tl.length := by omega
    have : (pre ++ b0 :: tl).getD (pre.length + (m + 1)) 0 = tl.getD m 0 := by
      rw [getD_append_at]; rfl
    have hmem : tl.getD m 0 ∈ tl := by
      rw [List.getD_eq_getElem _ _ hlt]; exact List.getElem_mem _
    rw [if_neg (by omega), this, htl _ hmem]
    simp only [Bool.false_eq_true, if_false]
    exact ih (by omega)

theorem decodeLastRune_encodeRune (pre : Bytes) (r : Nat) (hv : validRune r) (h : 0x80 ≤ r) :
    decodeLastRune (pre ++ encodeRune r) = (r, (encodeRune r).length) := by
  obtain ⟨b0, tl, he, hb0, hs0, htl, hlen, hcont⟩ := encodeRune_shape r hv h
  have hdec := decodeRune_encodeRune r [] hv
  rw [List.append_nil] at hdec
  rw [he] at hdec ⊢
  obtain ⟨m, hm⟩ : ∃ m, tl.length = m + 1 := by
    cases tl with
    | nil => exact absurd rfl htl
    | cons a tl => exact ⟨tl.length, rfl⟩
  have hlast : (pre ++ b0 :: tl).getD (pre.length + (m + 1)) 0 = tl.getD m 0 := by
    rw [getD_append_at]; rfl
  have hmem : tl.getD m 0 ∈ tl := by
    rw [List.getD_eq_getElem _ _ (by omega)]; exact List.getElem_mem _
  have hge := (hcont _ hmem).1
  have hst := lastStart_append pre tl b0 (pre.length + m + 1 + 1 - 4) m (by omega) hs0
    (fun b hb => (hcont b hb).2) (by omega)
  unfold decodeLastRune
  simp only [List.length_append, List.length_cons, hm, RuneSelf]
  have e1 : pre.length + (m + 1 + 1) - 1 = pre.length + (m + 1) := by omega
  have e2 : pre.length + (m + 1 + 1) - 4 = pre.length + m + 1 + 1 - 4 := by omega
  rw [if_neg (by omega), e1, hlast, if_neg (by omega), e2]
  have e3 : pre.length + (m + 1) = pre.length + m + 1 := by omega
  rw [e3, hst, List.drop_left, hdec]
  simp only [List.length_cons, hm]
  rw [if_neg (by omega)]

/-! ### The index loops of TrimFunc over white space -/

theorem encodeRunes_append (rs1 rs2 : List Nat) :
    encodeRunes (rs1 ++ rs2) = encodeRunes rs1 ++ encodeRunes rs2 := by
  induction rs1 with
  | nil => simp [encodeRunes]
  | cons r rs ih => simp [encodeRunes, ih]

theorem encodeRunes_length (rs : List Nat) : rs.length ≤ (encodeRunes rs).length := by
  induction rs with
  | nil => simp [encodeRunes]
  | cons r rs ih =>
    have : 1 ≤ (encodeRune r).length := by
      have := encodeRune_ne_nil r
      cases h : encodeRune r with
      | nil => exact absurd h this
      | cons a l => simp
    simp only [encodeRunes, List.length_cons, List.length_append]
    omega

theorem encodeRune_length_pos (r : Nat) : 1 ≤ (encodeRune r).length := by
  have := encodeRune_ne_nil r
  cases h : encodeRune r with
  | nil => exact absurd h this
  | cons a l => simp

/-- Reading the first rune of `encodeRune r ++ rest` the way indexFunc does. -/
theorem firstRune_encodeRune (r : Nat) (rest : Bytes) (hv : validRune r) :
    (if (encodeRune r ++ rest).getD 0 0 < RuneSelf then ((encodeRune r ++ rest).getD 0 0, 1)
      else decodeRune (encodeRune r ++ rest)) = (r, (encodeRune r).length) := by
  by_cases h : r < 0x80
  · rw [encodeRune_ascii r h]
    simp [RuneSelf, h]
  · obtain ⟨b0, tl, he, hb0, _⟩ := encodeRune_shape r hv (by omega)
    have hd := decodeRune_encodeRune r rest hv
    rw [he] at hd ⊢
    simp only [List.cons_append, List.getD_cons_zero, RuneSelf]
    rw [if_neg (by omega)]
    exact hd

/-- Reading the last rune of `pre ++ encodeRune r` the way lastIndexFunc does. -/
theorem lastRune_encodeRune (r : Nat) (pre : Bytes) (hv : validRune r) :
    (if (pre ++ encodeRune r).getD ((pre ++ encodeRune r).length - 1) 0 < RuneSelf then
        ((pre ++ encodeRune r).getD ((pre ++ encodeRune r).length - 1) 0, 1)
      else decodeLastRune (pre ++ encodeRune r)) = (r, (encodeRune r).length) := by
  by_cases h : r < 0x80
  · rw [encodeRune_ascii r h]
    have : (pre ++ [r]).getD ((pre ++ [r]).length - 1) 0 = r := by
      have := getD_append_at pre [r] 0
      simp
    rw [this]
    simp [RuneSelf, h]
  · obtain ⟨b0, tl, he, hb0, hs0, htl, hlen, hcont⟩ := encodeRune_shape r hv (by omega)
    have hd := decodeLastRune_encodeRune pre r hv (by omega)
    rw [he] at hd ⊢
    obtain ⟨m, hm⟩ : ∃ m, tl.length = m + 1 := by
      cases tl with
      | nil => exact absurd rfl htl
      | cons a tl => exact ⟨tl.length, rfl⟩
    have hlast : (pre ++ b0 :: tl).getD (pre.length + (m + 1)) 0 = tl.getD m 0 := by
      rw [getD_append_at]; rfl
    have hmem : tl.getD m 0 ∈ tl := by
      rw [List.getD_eq_getElem _ _ (by omega)]; exact List.getElem_mem _
    have hge := (hcont _ hmem).1
    have e1 : (pre ++ b0 :: tl).length - 1 = pre.length + (m + 1) := by
      simp only [List.length_append, List.length_cons, hm]; omega
    rw [e1, hlast, RuneSelf, if_neg (by omega)]
    exact hd

theorem indexFuncLoop_blank (rs : List Nat) (hrs : ∀ r ∈ rs, isSpace r = true)
    (pre core : Bytes) (c0 : Nat) (t : Bytes) (hcore : core = c0 :: t) (hc0 : c0 < 0x80)
    (hns : isSpace c0 = false) (fuel : Nat) (hfuel : rs.length + 1 ≤ fuel) :
    indexFuncLoop isSpace false (pre ++ encodeRunes rs ++ core) fuel pre.length =
      some (pre.length + (encodeRunes rs).length) := by
  induction rs generalizing pre fuel with
  | nil =>
    obtain ⟨f, rfl⟩ : ∃ f, fuel = f + 1 := ⟨fuel - 1, by simp at hfuel; omega⟩
    unfold indexFuncLoop
    simp only [encodeRunes, List.append_nil, List.length_append, List.length_nil, Nat.add_zero]
    have hg : (pre ++ core).getD pre.length 0 = c0 := by
      have := getD_append_at pre core 0
      rw [hcore] at this ⊢
      simpa using this
    rw [if_pos (by rw [hcore]; simp), hg]
    simp only [RuneSelf, hc0, if_true, hns]
  | cons r rs ih =>
    obtain ⟨f, rfl⟩ : ∃ f, fuel = f + 1 := ⟨fuel - 1, by simp at hfuel; omega⟩
    have hr : isSpace r = true := hrs r (by simp)
    have hrs' : ∀ r ∈ rs, isSpace r = true := fun x hx => hrs x (by simp [hx])
    have hv := isSpace_valid r hr
    have hs : pre ++ encodeRunes (r :: rs) ++ core =
        pre ++ (encodeRune r ++ (encodeRunes rs ++ core)) := by
      simp [encodeRunes]
    have hs2 : pre ++ encodeRunes (r :: rs) ++ core =
        (pre ++ encodeRune r) ++ encodeRunes rs ++ core := by
      simp [encodeRunes]
    have hfirst := firstRune_encodeRune r (encodeRunes rs ++ core) hv
    have hpos := encodeRune_length_pos r
    unfold indexFuncLoop
    have hlt : pre.length < (pre ++ encodeRunes (r :: rs) ++ core).length := by
      rw [hs]; simp only [List.length_append]; omega
    rw [if_pos hlt]
    have hg : (pre ++ encodeRunes (r :: rs) ++ core).getD pre.length 0 =
        (encodeRune r ++ (encodeRunes rs ++ core)).getD 0 0 := by
      rw [hs]; exact getD_append_at pre _ 0
    have hdrop : (pre ++ encodeRunes (r :: rs) ++ core).drop pre.length =
        encodeRune r ++ (encodeRunes rs ++ core) := by
      rw [hs]; exact List.drop_left _ _
    simp only [hg, hdrop, hfirst, hr]
    rw [if_neg (by simp)]
    have := ih hrs' (pre ++ encodeRune r) f (by simp at hfuel; omega)
    rw [hs2]
    simp only [List.length_append] at this
    rw [this]
    simp only [encodeRunes, List.length_append]
    congr 1
    omega

theorem lastIndexFuncLoop_blank (rs : List Nat) (hrs : ∀ r ∈ rs, isSpace r = true)
    (init post : Bytes) (cl : Nat) (hcl : cl < 0x80) (hns : isSpace cl = false) (fuel : Nat)
    (hfuel : rs.length + 1 ≤ fuel) :
    lastIndexFuncLoop isSpace false (init ++ [cl] ++ encodeRunes rs ++ post) fuel
      ((init ++ [cl]).length + (encodeRunes rs).length) = some init.length := by
  induction rs using List.reverseRecOn generalizing post fuel with
  | nil =>
    obtain ⟨f, rfl⟩ : ∃ f, fuel = f + 1 := ⟨fuel - 1, by simp at hfuel; omega⟩
    unfold lastIndexFuncLoop
    simp only [encodeRunes, List.append_nil, List.length_append, List.length_nil, Nat.add_zero,
      List.length_singleton, Nat.add_sub_cancel]
    have hg : (init ++ [cl] ++ post).getD init.length 0 = cl := by
      have := getD_append_at init ([cl] ++ post) 0
      simpa using this
    rw [if_pos (by omega), hg]
    simp only [RuneSelf, if_true, hns, hcl, Nat.add_sub_cancel]
  | append_singleton rs r ih =>
    obtain ⟨f, rfl⟩ : ∃ f, fuel = f + 1 := ⟨fuel - 1, by simp at hfuel; omega⟩
    have hr : isSpace r = true := hrs r (by simp)
    have hrs' : ∀ r ∈ rs, isSpace r = true := fun x hx => hrs x (by simp [hx])
    have hv := isSpace_valid r hr
    have henc : encodeRunes (rs ++ [r]) = encodeRunes rs ++ encodeRune r := by
      rw [encodeRunes_append]; simp [encodeRunes]
    have hpos := encodeRune_length_pos r
    have hlast := lastRune_encodeRune r (init ++ [cl] ++ encodeRunes rs) hv
    have hs : init ++ [cl] ++ encodeRunes (rs ++ [r]) ++ post =
        (init ++ [cl] ++ encodeRunes rs ++ encodeRune r) ++ post := by
      rw [henc]; simp
    have hs2 : init ++ [cl] ++ encodeRunes (rs ++ [r]) ++ post =
        init ++ [cl] ++ encodeRunes rs ++ (encodeRune r ++ post) := by
      rw [henc]; simp
    have hi : (init ++ [cl]).length + (encodeRunes (rs ++ [r])).length =
        (init ++ [cl] ++ encodeRunes rs ++ encodeRune r).length := by
      rw [henc]; simp only [List.length_append]; omega
    unfold lastIndexFuncLoop
    rw [hi, if_pos (by simp only [List.length_append]; omega)]
    have hg : (init ++ [cl] ++ encodeRunes (rs ++ [r]) ++ post).getD
        ((init ++ [cl] ++ encodeRunes rs ++ encodeRune r).length - 1) 0 =
        (init ++ [cl] ++ encodeRunes rs ++ encodeRune r).getD
          ((init ++ [cl] ++ encodeRunes rs ++ encodeRune r).length - 1) 0 := by
      rw [hs]
      rw [List.getD_append]
      simp only [List.length_append]; omega
    have htake : (init ++ [cl] ++ encodeRunes (rs ++ [r]) ++ post).take
        ((init ++ [cl] ++ encodeRunes rs ++ encodeRune r).length) =
        init ++ [cl] ++ encodeRunes rs ++ encodeRune r := by
      rw [hs]; exact List.take_left _ _
    simp only [hg, htake, hlast, hr]
    rw [if_neg (by simp)]
    have := ih hrs' (encodeRune r ++ post) f (by simp at hfuel; omega)
    rw [hs2]
    have e : (init ++ [cl] ++ encodeRunes rs ++ encodeRune r).length - (encodeRune r).length =
        (init ++ [cl]).length + (encodeRunes rs).length := by
      simp only [List.length_append]; omega
    rw [e]
    exact this

/-! ### TrimSpace on text between white space -/

theorem trimLeftFunc_blank (rs : List Nat) (hrs : ∀ r ∈ rs, isSpace r = true)
    (c0 : Nat) (t : Bytes) (hc0 : c0 < 0x80) (hns : isSpace c0 = false) :
    trimLeftFunc (encodeRunes rs ++ c0 :: t) isSpace = c0 :: t := by
  have h := indexFuncLoop_blank rs hrs [] (c0 :: t) c0 t rfl hc0 hns
    (encodeRunes rs ++ c0 :: t).length
    (by have := encodeRunes_length rs; simp only [List.length_append, List.length_cons]; omega)
  simp only [List.nil_append, List.length_nil, Nat.zero_add] at h
  unfold trimLeftFunc indexFunc
  rw [h]
  exact List.drop_left _ _

theorem trimRightFunc_blank (rs : List Nat) (hrs : ∀ r ∈ rs, isSpace r = true)
    (init : Bytes) (cl : Nat) (hcl : cl < 0x80) (hns : isSpace cl = false) :
    trimRightFunc (init ++ [cl] ++ encodeRunes rs) isSpace = init ++ [cl] := by
  have h := lastIndexFuncLoop_blank rs hrs init [] cl hcl hns
    (init ++ [cl] ++ encodeRunes rs).length
    (by have := encodeRunes_length rs; simp only [List.length_append, List.length_cons]; omega)
  simp only [List.append_nil] at h
  unfold trimRightFunc lastIndexFunc
  have e : (init ++ [cl] ++ encodeRunes rs).length =
      (init ++ [cl]).length + (encodeRunes rs).length := List.length_append _ _
  rw [e] at h ⊢
  rw [h]
  have hg : (init ++ [cl] ++ encodeRunes rs).getD init.length 0 = cl := by
    have := getD_append_at init ([cl] ++ encodeRunes rs) 0
    simpa using this
  simp only [hg, RuneSelf]
  rw [if_neg (by omega)]
  have : init.length + 1 = (init ++ [cl]).length := by simp
  rw [this]
  exact List.take_left _ _

theorem trimFunc_blank (rs1 rs3 : List Nat) (h1 : ∀ r ∈ rs1, isSpace r = true)
    (h3 : ∀ r ∈ rs3, isSpace r = true) (core : Bytes) (hcore : Solid core) :
    trimFunc (encodeRunes rs1 ++ core ++ encodeRunes rs3) isSpace = core := by
  obtain ⟨⟨c0, t, e0, hc0, hn0⟩, ⟨init, cl, el, hcl, hnl⟩⟩ := hcore
  unfold trimFunc
  have hl : trimLeftFunc (encodeRunes rs1 ++ core ++ encodeRunes rs3) isSpace =
      core ++ encodeRunes rs3 := by
    have := trimLeftFunc_blank rs1 h1 c0 (t ++ encodeRunes rs3) hc0 hn0
    rw [e0]
    simpa using this
  rw [hl, el]
  exact trimRightFunc_blank rs3 h3 init cl hcl hnl

theorem trimSpaceStop_blank (rs : List Nat) (hrs : ∀ r ∈ rs, isSpace r = true)
    (core post : Bytes) (hcore : Solid core) :
    trimSpaceStop (core ++ encodeRunes rs ++ post) (core.length + (encodeRunes rs).length) = core := by
  induction rs using List.reverseRecOn generalizing post with
  | nil =>
    obtain ⟨_, ⟨init, cl, el, hcl, hnl⟩⟩ := hcore
    subst el
    simp only [encodeRunes, List.append_nil, List.length_append, List.length_singleton,
      List.length_nil, Nat.add_zero]
    unfold trimSpaceStop
    have hg : (init ++ [cl] ++ post).getD init.length 0 = cl := by
      have := getD_append_at init ([cl] ++ post) 0
      simpa using this
    have hsp : asciiSpace cl = false := by rw [← isSpace_ascii cl hcl]; exact hnl
    simp only [hg, RuneSelf, hsp]
    rw [if_neg (by omega)]
    simp only [Bool.false_eq_true, if_false]
    have : init.length + 1 = (init ++ [cl]).length := by simp
    rw [this]
    exact List.take_left _ _
  | append_singleton rs r ih =>
    have hr : isSpace r = true := hrs r (by simp)
    have hrs' : ∀ r ∈ rs, isSpace r = true := fun x hx => hrs x (by simp [hx])
    have hv := isSpace_valid r hr
    have henc : encodeRunes (rs ++ [r]) = encodeRunes rs ++ encodeRune r := by
      rw [encodeRunes_append]; simp [encodeRunes]
    have hpos := encodeRune_length_pos r
    obtain ⟨n, hn⟩ : ∃ n, core.length + (encodeRunes (rs ++ [r])).length = n + 1 := by
      rw [henc]; simp only [List.length_append]
      exact ⟨core.length + (encodeRunes rs).length + (encodeRune r).length - 1, by omega⟩
    have hs : core ++ encodeRunes (rs ++ [r]) ++ post =
        (core ++ encodeRunes rs ++ encodeRune r) ++ post := by
      rw [henc]; simp
    have hlen : (core ++ encodeRunes rs ++ encodeRune r).length = n + 1 := by
      rw [← hn, henc]; simp only [List.length_append]; omega
    have hg : (core ++ encodeRunes (rs ++ [r]) ++ post).getD n 0 =
        (core ++ encodeRunes rs ++ encodeRune r).getD n 0 := by
      rw [hs, List.getD_append]
      omega
    have htake : (core ++ encodeRunes (rs ++ [r]) ++ post).take (n + 1) =
        core ++ encodeRunes rs ++ encodeRune r := by
      rw [hs, ← hlen]; exact List.take_left _ _
    rw [hn]
    unfold trimSpaceStop
    simp only [hg, htake]
    by_cases hascii : r < 0x80
    · have he := encodeRune_ascii r hascii
      have hgr : (core ++ encodeRunes rs ++ encodeRune r).getD n 0 = r := by
        rw [he] at hlen ⊢
        have := getD_append_at (core ++ encodeRunes rs) [r] 0
        simp only [List.length_append, List.length_singleton] at hlen
        have hn' : n = (core ++ encodeRunes rs).length := by
          simp only [List.length_append]; omega
        rw [hn']
        simpa using this
      have hsp : asciiSpace r = true := by rw [← isSpace_ascii r hascii]; exact hr
      rw [hgr, RuneSelf, if_neg (by omega), if_pos hsp]
      have := ih hrs' (encodeRune r ++ post)
      have hn' : n = core.length + (encodeRunes rs).length := by
        rw [he] at hlen
        simp only [List.length_append, List.length_singleton] at hlen
        omega
      rw [hn']
      have hs2 : core ++ encodeRunes (rs ++ [r]) ++ post =
          core ++ encodeRunes rs ++ (encodeRune r ++ post) := by
        rw [henc]; simp
      rw [hs2]
      exact this
    · obtain ⟨b0, tl, he, hb0, hs0, htl, hl3, hcont⟩ := encodeRune_shape r hv (by omega)
      have hgr : 0x80 ≤ (core ++ encodeRunes rs ++ encodeRune r).getD n 0 := by
        obtain ⟨m, hm⟩ : ∃ m, tl.length = m + 1 := by
          cases tl with
          | nil => exact absurd rfl htl
          | cons a tl => exact ⟨tl.length, rfl⟩
        rw [he] at hlen ⊢
        simp only [List.length_append, List.length_cons, hm] at hlen
        have hn' : n = (core ++ encodeRunes rs).length + (m + 1) := by
          simp only [List.length_append]; omega
        rw [hn', getD_append_at]
        have hmem : tl.getD m 0 ∈ tl := by
          rw [List.getD_eq_getElem _ _ (by omega)]; exact List.getElem_mem _
        exact (hcont _ hmem).1
      rw [RuneSelf, if_pos hgr]
      have := trimFunc_blank [] (rs ++ [r]) (by simp) hrs core hcore
      simp only [encodeRunes, List.nil_append] at this
      rw [henc] at this
      rw [List.append_assoc]
      exact this

theorem trimSpace_blank (rs1 rs3 : List Nat) (h1 : ∀ r ∈ rs1, isSpace r = true)
    (h3 : ∀ r ∈ rs3, isSpace r = true) (core : Bytes) (hcore : Solid core) :
    trimSpace (encodeRunes rs1 ++ core ++ encodeRunes rs3) = core := by
  induction rs1 with
  | nil =>
    obtain ⟨c0, t, e0, hc0, hn0⟩ := hcore.1
    have hsp : asciiSpace c0 = false := by rw [← isSpace_ascii c0 hc0]; exact hn0
    have := trimSpaceStop_blank rs3 h3 core [] hcore
    simp only [List.append_nil] at this
    simp only [encodeRunes, List.nil_append]
    have hlen : (core ++ encodeRunes rs3).length = core.length + (encodeRunes rs3).length := by
      simp
    rw [← hlen] at this
    rw [e0] at this ⊢
    simp only [List.cons_append] at this ⊢
    unfold trimSpace
    rw [RuneSelf, if_neg (by omega), hsp]
    simp only [Bool.false_eq_true, if_false]
    exact this
  | cons r rs ih =>
    have hr : isSpace r = true := h1 r (by simp)
    have hrs' : ∀ r ∈ rs, isSpace r = true := fun x hx => h1 x (by simp [hx])
    have hv := isSpace_valid r hr
    by_cases hascii : r < 0x80
    · have he := encodeRune_ascii r hascii
      have hsp : asciiSpace r = true := by rw [← isSpace_ascii r hascii]; exact hr
      simp only [encodeRunes, he, List.cons_append, List.nil_append]
      unfold trimSpace
      rw [RuneSelf, if_neg (by omega), if_pos hsp]
      exact ih hrs'
    · obtain ⟨b0, tl, he, hb0, _⟩ := encodeRune_shape r hv (by omega)
      have := trimFunc_blank (r :: rs) rs3 h1 h3 core hcore
      simp only [encodeRunes, he, List.cons_append] at this ⊢
      unfold trimSpace
      rw [RuneSelf, if_pos hb0]
      exact this

/-! ### A Connected line (C1) -/

theorem lowerByte_letter (c x : Nat) (hx : 0x61 ≤ x ∧ x ≤ 0x7A) (h : lowerByte c = x) :
    c < 0x80 ∧ isSpace c = false := by
  unfold lowerByte at h
  have hc : c = x ∨ c + 0x20 = x := by split_ifs at h <;> omega
  have hlt : c < 0x80 := by omega
  refine ⟨hlt, ?_⟩
  rw [isSpace_ascii c hlt]
  unfold asciiSpace
  simp only [decide_eq_false_iff_not]
  omega

theorem connected_solid (word : Bytes) (h : equalIgnoringCase word (ascii "Connected")) :
    Solid word ∧ ∃ init cl, word = init ++ [cl] ∧ cl < 0x80 ∧ isSpace cl = false := by
  unfold equalIgnoringCase at h
  have e : (ascii "Connected").map lowerByte = [0x63, 0x6F, 0x6E, 0x6E, 0x65, 0x63, 0x74, 0x65, 0x64] := by
    decide
  rw [e] at h
  rcases word with _ | ⟨a1, _ | ⟨a2, _ | ⟨a3, _ | ⟨a4, _ | ⟨a5, _ | ⟨a6, _ | ⟨a7, _ | ⟨a8, _ | ⟨a9, _ | ⟨a10, w⟩⟩⟩⟩⟩⟩⟩⟩⟩⟩ <;>
    simp only [List.map_cons, List.map_nil, List.cons.injEq, and_true, reduceCtorEq, and_false] at h
  obtain ⟨h1, _, _, _, _, _, _, _, h9⟩ := h
  have f1 := lowerByte_letter a1 _ (by omega) h1
  have f9 := lowerByte_letter a9 _ (by omega) h9
  have hl : ∃ init cl, [a1, a2, a3, a4, a5, a6, a7, a8, a9] = init ++ [cl] ∧ cl < 0x80 ∧
      isSpace cl = false := ⟨[a1, a2, a3, a4, a5, a6, a7, a8], a9, rfl, f9.1, f9.2⟩
  exact ⟨⟨⟨a1, _, rfl, f1.1, f1.2⟩, hl⟩, hl⟩

/-- C1: status detection is case-insensitive and whitespace-tolerant on the
state value. For every successful status output that has a line made of white
space, the exact marker `>> state:`, white space, any upper/lower-casing of
"Connected" and white space, checkVpnStatus returns true and no error. White
space is any UTF-8 text of runes accepted by unicode.IsSpace. -/
theorem checkVpnStatus_connected (env : Env) (w : World) (output line ws1 ws2 ws3 word : Bytes)
    (hrun : env.run (vpnCommand env) [ascii "status"] [] = (output, none))
    (hline : line ∈ split 0x0A output)
    (hshape : line = ws1 ++ ascii ">> state:" ++ ws2 ++ word ++ ws3)
    (h1 : Blank ws1) (h2 : Blank ws2) (h3 : Blank ws3)
    (hword : equalIgnoringCase word (ascii "Connected")) :
    (checkVpnStatus env w).1 = (true, none) := by
  obtain ⟨rs1, hr1, rfl⟩ := h1
  obtain ⟨rs2, hr2, rfl⟩ := h2
  obtain ⟨rs3, hr3, rfl⟩ := h3
  obtain ⟨hsolid, init, cl, hw, hcl, hncl⟩ := connected_solid word hword
  have hm : ascii ">> state:" = stateMarker := rfl
  rw [hm] at hshape
  have hcore : Solid (stateMarker ++ encodeRunes rs2 ++ word) := by
    constructor
    · refine ⟨0x3E, ascii "> state:" ++ encodeRunes rs2 ++ word, ?_, by omega, by decide⟩
      have : stateMarker = 0x3E :: ascii "> state:" := by decide
      rw [this]; simp
    · exact ⟨stateMarker ++ encodeRunes rs2 ++ init, cl, by rw [hw]; simp, hcl, hncl⟩
  have htrim : trimSpace line = stateMarker ++ encodeRunes rs2 ++ word := by
    have := trimSpace_blank rs1 rs3 hr1 hr3 _ hcore
    rw [hshape]
    simpa using this
  have hcar : carriesMarker line := by
    unfold carriesMarker
    rw [htrim, List.append_assoc]
    exact List.prefix_append _ _
  have hval : stateValue line = word := by
    unfold stateValue
    rw [htrim, List.append_assoc, List.drop_left]
    have := trimSpace_blank rs2 [] hr2 (by simp) word hsolid
    simpa [encodeRunes] using this
  rw [checkVpnStatus_ok env w output hrun]
  have : scanLines env.orbit (split 0x0A output) = true := by
    rw [scanLines_iff]
    exact ⟨line, hline, hcar, by rw [hval]; exact hword⟩
  rw [this]

/-- C1 at the outputs `>> state: Connected` and `>> state:   CONNECTED  `, and
at a line indented by a no-break space with a tab before the value and "\r" at
the end. -/
theorem checkVpnStatus_connected_witness :
    (checkVpnStatus (statusEnv (ascii ">> state: Connected") none) (freshWorld [])).1 = (true, none) ∧
    (checkVpnStatus (statusEnv (ascii ">> state:   CONNECTED  ") none) (freshWorld [])).1 =
      (true, none) ∧
    (checkVpnStatus (statusEnv (ascii "ready\n" ++ [0xC2, 0xA0] ++ ascii ">> state:\tconnECTed\r\n")
      none) (freshWorld [])).1 = (true, none) :=
  ⟨checkVpnStatus_connected (statusEnv (ascii ">> state: Connected") none) (freshWorld [])
      (ascii ">> state: Connected") (ascii ">> state: Connected") [] (ascii " ") []
      (ascii "Connected") (by decide) (by decide) (by decide)
      ⟨[], by decide, by decide⟩ ⟨[0x20], by decide, by decide⟩ ⟨[], by decide, by decide⟩
      (by decide),
   checkVpnStatus_connected (statusEnv (ascii ">> state:   CONNECTED  ") none) (freshWorld [])
      (ascii ">> state:   CONNECTED  ") (ascii ">> state:   CONNECTED  ") [] (ascii "   ")
      (ascii "  ") (ascii "CONNECTED") (by decide) (by decide) (by decide)
      ⟨[], by decide, by decide⟩ ⟨[0x20, 0x20, 0x20], by decide, by decide⟩
      ⟨[0x20, 0x20], by decide, by decide⟩ (by decide),
   checkVpnStatus_connected
      (statusEnv (ascii "ready\n" ++ [0xC2, 0xA0] ++ ascii ">> state:\tconnECTed\r\n") none)
      (freshWorld []) (ascii "ready\n" ++ [0xC2, 0xA0] ++ ascii ">> state:\tconnECTed\r\n")
      ([0xC2, 0xA0] ++ ascii ">> state:\tconnECTed\r") [0xC2, 0xA0] (ascii "\t") (ascii "\r")
      (ascii "connECTed") (by decide) (by decide) (by decide)
      ⟨[0xA0], by decide, by decide⟩ ⟨[0x09], by decide, by decide⟩
      ⟨[0x0D], by decide, by decide⟩ (by decide)⟩

/-! ### Scanln on a line with one word -/

theorem fmtIsSpace_valid (r : Nat) (h : fmtIsSpace r = true) : validRune r := by
  unfold fmtIsSpace at h
  unfold validRune MaxRune
  split_ifs at h
  simp only [decide_eq_true_eq] at h
  omega

theorem decodeRune_encodeRune_fst (r : Nat) (rest : Bytes) (hv : validRune r) :
    (decodeRune (encodeRune r ++ rest)).1 = r := by
  rw [decodeRune_encodeRune r rest hv]

/-- The first rune of a text that starts with the encoding of `r`. -/
theorem drop_encodeRune (r : Nat) (rest : Bytes) (hv : validRune r) :
    (encodeRune r ++ rest).drop (decodeRune (encodeRune r ++ rest)).2 = rest := by
  rw [decodeRune_encodeRune r rest hv]
  exact List.drop_left _ _

theorem encodeRune_cons (r : Nat) : ∃ b t, encodeRune r = b :: t := by
  cases h : encodeRune r with
  | nil => exact absurd h (encodeRune_ne_nil r)
  | cons b t => exact ⟨b, t, rfl⟩

theorem skipSpace_pad (ps : List Nat) (hps : ∀ r ∈ ps, fmtIsSpace r = true ∧ r ≠ 0x0A)
    (r0 : Nat) (rest : Bytes) (hv0 : validRune r0) (hn0 : fmtIsSpace r0 = false)
    (fuel : Nat) (hfuel : ps.length + 1 ≤ fuel) :
    skipSpace fuel (encodeRunes ps ++ (encodeRune r0 ++ rest)) = (none, encodeRune r0 ++ rest) := by
  have hr0 : r0 ≠ 0x0A := by
    intro h; rw [h] at hn0; exact absurd hn0 (by decide)
  induction ps generalizing fuel with
  | nil =>
    obtain ⟨f, rfl⟩ : ∃ f, fuel = f + 1 := ⟨fuel - 1, by simp at hfuel; omega⟩
    obtain ⟨b, t, hbt⟩ := encodeRune_cons r0
    have hd := decodeRune_encodeRune_fst r0 rest hv0
    simp only [encodeRunes, List.nil_append]
    rw [hbt] at hd ⊢
    simp only [List.cons_append] at hd ⊢
    unfold skipSpace
    simp only [hd, hn0]
    have h13 : ¬ r0 = 0x0D := by
      intro h; rw [h] at hn0; exact absurd hn0 (by decide)
    simp [h13, hr0]
  | cons p ps ih =>
    obtain ⟨f, rfl⟩ : ∃ f, fuel = f + 1 := ⟨fuel - 1, by simp at hfuel; omega⟩
    have hp := hps p (by simp)
    have hps' : ∀ r ∈ ps, fmtIsSpace r = true ∧ r ≠ 0x0A := fun x hx => hps x (by simp [hx])
    have hvp := fmtIsSpace_valid p hp.1
    obtain ⟨b, t, hbt⟩ := encodeRune_cons p
    have hd1 := decodeRune_encodeRune_fst p (encodeRunes ps ++ (encodeRune r0 ++ rest)) hvp
    have hd2 := drop_encodeRune p (encodeRunes ps ++ (encodeRune r0 ++ rest)) hvp
    have hnext : (decodeRune (encodeRunes ps ++ (encodeRune r0 ++ rest))).1 ≠ 0x0A := by
      cases ps with
      | nil =>
        simp only [encodeRunes, List.nil_append]
        rw [decodeRune_encodeRune_fst r0 rest hv0]; exact hr0
      | cons q qs =>
        have hq := hps q (by simp)
        simp only [encodeRunes, List.append_assoc]
        rw [decodeRune_encodeRune_fst q _ (fmtIsSpace_valid q hq.1)]; exact hq.2
    simp only [encodeRunes, List.append_assoc]
    rw [hbt] at hd1 hd2 ⊢
    simp only [List.cons_append] at hd1 hd2 ⊢
    unfold skipSpace
    simp only [hd1, hd2, hp.1, hnext, hp.2, and_false, if_false, Bool.not_true, Bool.false_eq_true]
    exact ih hps' f (by simp at hfuel; omega)

theorem readToken_word (ws : List Nat) (hws : ∀ r ∈ ws, validRune r ∧ fmtIsSpace r = false)
    (q : Nat) (rest : Bytes) (hq : fmtIsSpace q = true) (fuel : Nat)
    (hfuel : ws.length + 1 ≤ fuel) :
    readToken fuel (encodeRunes ws ++ (encodeRune q ++ rest)) =
      (encodeRunes ws, encodeRune q ++ rest) := by
  have hvq := fmtIsSpace_valid q hq
  induction ws generalizing fuel with
  | nil =>
    obtain ⟨f, rfl⟩ : ∃ f, fuel = f + 1 := ⟨fuel - 1, by simp at hfuel; omega⟩
    obtain ⟨b, t, hbt⟩ := encodeRune_cons q
    have hd := decodeRune_encodeRune_fst q rest hvq
    simp only [encodeRunes, List.nil_append]
    rw [hbt] at hd ⊢
    simp only [List.cons_append] at hd ⊢
    unfold readToken
    simp only [hd, hq, if_true]
  | cons r ws ih =>
    obtain ⟨f, rfl⟩ : ∃ f, fuel = f + 1 := ⟨fuel - 1, by simp at hfuel; omega⟩
    have hr := hws r (by simp)
    have hws' : ∀ r ∈ ws, validRune r ∧ fmtIsSpace r = false := fun x hx => hws x (by simp [hx])
    obtain ⟨b, t, hbt⟩ := encodeRune_cons r
    have hd1 := decodeRune_encodeRune_fst r (encodeRunes ws ++ (encodeRune q ++ rest)) hr.1
    have hd2 := drop_encodeRune r (encodeRunes ws ++ (encodeRune q ++ rest)) hr.1
    have hih := ih hws' f (by simp at hfuel; omega)
    simp only [encodeRunes, List.append_assoc]
    rw [hbt] at hd1 hd2
    simp only [List.cons_append] at hd1 hd2
    rw [show encodeRune r ++ (encodeRunes ws ++ (encodeRune q ++ rest)) =
      b :: (t ++ (encodeRunes ws ++ (encodeRune q ++ rest))) by rw [hbt]; rfl]
    unfold readToken
    simp only [hd1, hd2, hr.2, Bool.false_eq_true, if_false, hih]

theorem expectNewline_pad (ps : List Nat) (hps : ∀ r ∈ ps, fmtIsSpace r = true ∧ r ≠ 0x0A)
    (rest : Bytes) (fuel : Nat) (hfuel : ps.length + 1 ≤ fuel) :
    expectNewline fuel (encodeRunes ps ++ 0x0A :: rest) = (none, rest) := by
  induction ps generalizing fuel with
  | nil =>
    obtain ⟨f, rfl⟩ : ∃ f, fuel = f + 1 := ⟨fuel - 1, by simp at hfuel; omega⟩
    simp only [encodeRunes, List.nil_append]
    unfold expectNewline
    simp [decodeRune]
  | cons p ps ih =>
    obtain ⟨f, rfl⟩ : ∃ f, fuel = f + 1 := ⟨fuel - 1, by simp at hfuel; omega⟩
    have hp := hps p (by simp)
    have hps' : ∀ r ∈ ps, fmtIsSpace r = true ∧ r ≠ 0x0A := fun x hx => hps x (by simp [hx])
    have hvp := fmtIsSpace_valid p hp.1
    obtain ⟨b, t, hbt⟩ := encodeRune_cons p
    have hd1 := decodeRune_encodeRune_fst p (encodeRunes ps ++ 0x0A :: rest) hvp
    have hd2 := drop_encodeRune p (encodeRunes ps ++ 0x0A :: rest) hvp
    simp only [encodeRunes, List.append_assoc]
    rw [hbt] at hd1 hd2 ⊢
    simp only [List.cons_append] at hd1 hd2 ⊢
    unfold expectNewline
    simp only [hd1, hd2, hp.1, hp.2, if_false, Bool.not_true, Bool.false_eq_true]
    exact ih hps' f (by simp at hfuel; omega)

/-- Scanln on a line holding one word between blanks: the word is read and the
input is consumed through the newline. -/
theorem scanlnString_word (pad1 word pad2 more : Bytes) (hp1 : IsPad pad1) (hw : IsWord word)
    (hp2 : IsPad pad2) :
    scanlnString (pad1 ++ word ++ pad2 ++ [0x0A] ++ more) = (.ok word, more) := by
  obtain ⟨ps1, hps1, rfl⟩ := hp1
  obtain ⟨ws, hne, hws, rfl⟩ := hw
  obtain ⟨ps2, hps2, rfl⟩ := hp2
  obtain ⟨r0, ws', rfl⟩ : ∃ r0 ws', ws = r0 :: ws' := by
    cases ws with
    | nil => exact absurd rfl hne
    | cons a l => exact ⟨a, l, rfl⟩
  have hr0 := hws r0 (by simp)
  have hws' : ∀ r ∈ ws', validRune r ∧ fmtIsSpace r = false := fun x hx => hws x (by simp [hx])
  -- the text after the blanks
  have hshape : encodeRunes ps1 ++ encodeRunes (r0 :: ws') ++ encodeRunes ps2 ++ [0x0A] ++ more =
      encodeRunes ps1 ++ (encodeRune r0 ++ (encodeRunes ws' ++ encodeRunes ps2 ++ [0x0A] ++ more)) := by
    simp [encodeRunes]
  -- what follows the word starts with a blank or the newline
  obtain ⟨q, tail, hq, htail⟩ : ∃ q tail, fmtIsSpace q = true ∧
      encodeRunes ps2 ++ 0x0A :: more = encodeRune q ++ tail := by
    cases ps2 with
    | nil => exact ⟨0x0A, more, by decide, by simp [encodeRunes, encodeRune]⟩
    | cons p ps =>
      exact ⟨p, encodeRunes ps ++ 0x0A :: more, (hps2 p (by simp)).1, by simp [encodeRunes]⟩
  have hlen1 := encodeRunes_length ps1
  have hlen2 := encodeRunes_length (r0 :: ws')
  have hlen3 := encodeRunes_length ps2
  have hpos := encodeRune_length_pos r0
  have hposq := encodeRune_length_pos q
  have hsk1 := skipSpace_pad ps1 hps1 r0
    (encodeRunes ws' ++ encodeRunes ps2 ++ [0x0A] ++ more) hr0.1 hr0.2
    (encodeRunes ps1 ++ (encodeRune r0 ++ (encodeRunes ws' ++ encodeRunes ps2 ++ [0x0A] ++ more))).length
    (by simp only [List.length_append]; omega)
  have hsk2 := skipSpace_pad [] (by simp) r0
    (encodeRunes ws' ++ encodeRunes ps2 ++ [0x0A] ++ more) hr0.1 hr0.2
    (encodeRune r0 ++ (encodeRunes ws' ++ encodeRunes ps2 ++ [0x0A] ++ more)).length
    (by simp only [List.length_append, List.length_nil]; omega)
  simp only [encodeRunes, List.nil_append] at hsk2
  have hword : encodeRune r0 ++ (encodeRunes ws' ++ encodeRunes ps2 ++ [0x0A] ++ more) =
      encodeRunes (r0 :: ws') ++ (encodeRune q ++ tail) := by
    rw [← htail]; simp [encodeRunes]
  have htok := readToken_word (r0 :: ws') hws q tail hq
    (encodeRunes (r0 :: ws') ++ (encodeRune q ++ tail)).length
    (by simp only [List.length_append]; omega)
  have hnl := expectNewline_pad ps2 hps2 more (encodeRunes ps2 ++ 0x0A :: more).length
    (by simp only [List.length_append, List.length_cons]; omega)
  have hnonempty : (encodeRune r0 ++ (encodeRunes ws' ++ encodeRunes ps2 ++ [0x0A] ++ more)).isEmpty
      = false := by
    obtain ⟨b, t, hbt⟩ := encodeRune_cons r0
    rw [hbt]; rfl
  unfold scanlnString
  rw [hshape, hsk1]
  simp only [hnonempty, Bool.false_eq_true, if_false]
  rw [hsk2]
  simp only []
  rw [hword, htok]
  simp only []
  rw [← htail, hnl]

/-! ### The test against y -/

theorem encodeRune_head_ne (r : Nat) (h : r ≠ 0x79) : ∀ t, encodeRune r ≠ 0x79 :: t := by
  intro t
  unfold encodeRune
  split_ifs <;> simp <;> omega

theorem mapTail_ne_nil (m : Nat → Nat) (fuel b : Nat) (t : Bytes) :
    mapTail m (fuel + 1) (b :: t) ≠ [] := by
  unfold mapTail
  have := encodeRune_ne_nil (m (decodeRune (b :: t)).1)
  simp [this]

theorem stringsMap_ne_nil (m : Nat → Nat) (fuel b : Nat) (t : Bytes) :
    stringsMap m (fuel + 1) (b :: t) ≠ [] := by
  unfold stringsMap
  have h1 := encodeRune_ne_nil (m (decodeRune (b :: t)).1)
  have h2 := decodeRune_width_pos b t
  simp only []
  split_ifs
  · obtain ⟨k, hk⟩ : ∃ k, (decodeRune (b :: t)).2 = k + 1 := ⟨_, (Nat.sub_add_cancel h2).symm⟩
    rw [hk]; simp
  · simp [h1]

theorem stringsMap_ne_y (lower : Nat → Nat) (hlower : ∀ r, 0x80 ≤ r → lower r ≠ 0x79)
    (fuel : Nat) (s : Bytes) (hfuel : s.length ≤ fuel)
    (hs : s.all (fun c => decide (c < RuneSelf)) = false) :
    stringsMap (unicodeToLower lower) fuel s ≠ [0x79] := by
  induction fuel generalizing s with
  | zero =>
    cases s with
    | nil => simp at hs
    | cons b t => simp at hfuel
  | succ f ih =>
    cases s with
    | nil => simp at hs
    | cons b t =>
      simp only [List.length_cons] at hfuel
      have hw := decodeRune_width_pos b t
      by_cases hb : b < 0x80
      · have ht : t.all (fun c => decide (c < RuneSelf)) = false := by
          simp only [List.all_cons, RuneSelf, hb, decide_True, Bool.true_and] at hs
          exact hs
        obtain ⟨b', t', rfl⟩ : ∃ b' t', t = b' :: t' := by
          cases t with
          | nil => simp at ht
          | cons x y => exact ⟨x, y, rfl⟩
        obtain ⟨f', rfl⟩ : ∃ f', f = f' + 1 := ⟨f - 1, by simp at hfuel; omega⟩
        have hd := decodeRune_ascii b (b' :: t') hb
        unfold stringsMap
        simp only [hd, List.take_succ_cons, List.take_zero, List.drop_succ_cons, List.drop_zero]
        split_ifs
        · intro hc
          simp only [List.singleton_append, List.cons.injEq] at hc
          exact stringsMap_ne_nil _ _ _ _ hc.2
        · intro hc
          have h1 := encodeRune_length_pos (unicodeToLower lower b)
          have h2 : 1 ≤ (mapTail (unicodeToLower lower) (f' + 1) (b' :: t')).length := by
            have := mapTail_ne_nil (unicodeToLower lower) f' b' t'
            cases h : mapTail (unicodeToLower lower) (f' + 1) (b' :: t') with
            | nil => exact absurd h this
            | cons x y => simp
          have := congrArg List.length hc
          simp only [List.length_append, List.length_singleton] at this
          omega
      · have hge := decodeRune_ge b t (by omega)
        have hr : unicodeToLower lower (decodeRune (b :: t)).1 ≠ 0x79 := by
          unfold unicodeToLower
          rw [if_neg (by omega)]
          exact hlower _ hge
        unfold stringsMap
        simp only []
        split_ifs
        · obtain ⟨k, hk⟩ : ∃ k, (decodeRune (b :: t)).2 = k + 1 :=
            ⟨_, (Nat.sub_add_cancel hw).symm⟩
          rw [hk]
          simp only [List.take_succ_cons, List.cons_append, ne_eq, List.cons.injEq, not_and]
          intro h; omega
        · intro hc
          cases hm : mapTail (unicodeToLower lower) f
              (List.drop (decodeRune (b :: t)).2 (b :: t)) with
          | nil =>
            rw [hm, List.append_nil] at hc
            exact encodeRune_head_ne _ hr [] hc
          | cons x y =>
            rw [hm] at hc
            have h1 := encodeRune_length_pos (unicodeToLower lower (decodeRune (b :: t)).1)
            have := congrArg List.length hc
            simp only [List.length_append, List.length_cons, List.length_nil] at this
            omega

/-- The test `strings.ToLower(ciscoLogs) == "y"` holds exactly for "y" and "Y",
provided the Unicode tables lower no rune above ASCII to `y`. -/
theorem toLower_eq_y (lower : Nat → Nat) (hlower : ∀ r, 0x80 ≤ r → lower r ≠ 0x79) (s : Bytes) :
    toLower lower s = ascii "y" ↔ (s = ascii "y" ∨ s = ascii "Y") := by
  have e1 : ascii "y" = [0x79] := by decide
  have e2 : ascii "Y" = [0x59] := by decide
  rw [e1, e2]
  unfold toLower
  by_cases hs : s.all (fun c => decide (c < RuneSelf)) = true
  · rw [if_pos hs]
    constructor
    · intro h
      rcases s with _ | ⟨c, _ | ⟨d, t⟩⟩
      · simp at h
      · simp only [List.map_cons, List.map_nil, List.cons.injEq, and_true] at h
        unfold lowerByte at h
        simp only [List.cons.injEq, and_true]
        split_ifs at h <;> omega
      · simp at h
    · rintro (h | h) <;> subst h <;> decide
  · rw [if_neg hs]
    have hs' : s.all (fun c => decide (c < RuneSelf)) = false := by simpa using hs
    constructor
    · intro h
      exact absurd h (stringsMap_ne_y lower hlower _ s (le_refl _) hs')
    · rintro (h | h) <;> subst h <;> exact absurd hs' (by decide)

/-! ### The logging choice (C7) and the evaluations for C7 and C8 -/

/-- The result of generateConfig once the four string prompts are answered, in
terms of the fifth Scanln. -/
theorem generateConfig_after_prompts (env : Env) (w : World)
    (server group username password in1 in2 in3 in4 : Bytes)
    (hs1 : scanlnString w.stdin = (.ok server, in1))
    (hs2 : scanlnString in1 = (.ok group, in2))
    (hs3 : scanlnString in2 = (.ok username, in3))
    (hs4 : scanlnString in3 = (.ok password, in4)) :
    (generateConfig env w).1 =
      match (scanlnString in4).1 with
      | .error err => .error err
      | .ok answer =>
        match env.mkdirAll (configDir env) with
        | some err => .error err
        | none =>
          match env.create (configPath env) with
          | some err => .error err
          | none =>
            match env.encode (configPath env)
              { Server := server, Group := group, Username := username, Password := password,
                CiscoLogs := decide (toLower env.lower answer = ascii "y") } with
            | some err => .error err
            | none => .ok { Server := server, Group := group, Username := username,
                            Password := password,
                            CiscoLogs := decide (toLower env.lower answer = ascii "y") } := by
  unfold generateConfig
  simp only [scanln, print, println, getConfigPath, hs1, hs2, hs3, hs4]
  cases h5 : (scanlnString in4).1 with
  | error err => rfl
  | ok answer =>
    simp only []
    cases env.mkdirAll (configDir env) with
    | some err => rfl
    | none =>
      simp only []
      cases env.create (configPath env) with
      | some err => rfl
      | none =>
        simp only []
        cases env.encode (configPath env)
          { Server := server, Group := group, Username := username, Password := password,
            CiscoLogs := decide (toLower env.lower answer = ascii "y") } with
        | some err => rfl
        | none => rfl

/-- C7 (amended): the logging choice in generateConfig. Once the four string
prompts have been answered: for every answer line that holds one word, with or
without blanks around it, generation (the file being writable, and no rune
above ASCII being lowered to `y` by the Unicode tables) yields a configuration
whose logging flag is true exactly when the word is "y" or "Y" and false for
any other word; for the empty answer line Scanln fails and generateConfig
returns the error "unexpected newline" and no configuration. -/
theorem generateConfig_logging (env : Env) (w : World)
    (server group username password in1 in2 in3 in4 : Bytes)
    (hs1 : scanlnString w.stdin = (.ok server, in1))
    (hs2 : scanlnString in1 = (.ok group, in2))
    (hs3 : scanlnString in2 = (.ok username, in3))
    (hs4 : scanlnString in3 = (.ok password, in4)) :
    (∀ pad1 word pad2 more : Bytes,
      in4 = pad1 ++ word ++ pad2 ++ ascii "\n" ++ more →
      IsPad pad1 → IsWord word → IsPad pad2 →
      env.mkdirAll (configDir env) = none →
      env.create (configPath env) = none →
      (∀ c, env.encode (configPath env) c = none) →
      (∀ r, 0x80 ≤ r → env.lower r ≠ 0x79) →
      (generateConfig env w).1 =
        .ok { Server := server, Group := group, Username := username, Password := password,
              CiscoLogs := decide (word = ascii "y" ∨ word = ascii "Y") }) ∧
    (∀ more : Bytes, in4 = ascii "\n" ++ more →
      (generateConfig env w).1 = .error ⟨ascii "unexpected newline"⟩) := by
  have hg := generateConfig_after_prompts env w server group username password in1 in2 in3 in4
    hs1 hs2 hs3 hs4
  have enl : ascii "\n" = [0x0A] := by decide
  constructor
  · intro pad1 word pad2 more hin hp1 hw hp2 hdir hcreate hencode hlower
    have hscan := scanlnString_word pad1 word pad2 more hp1 hw hp2
    rw [enl] at hin
    rw [← hin] at hscan
    rw [hg, hscan]
    simp only [hdir, hcreate, hencode]
    have := toLower_eq_y env.lower hlower word
    simp only [this]
  · intro more hin
    rw [enl] at hin
    have hscan : (scanlnString in4).1 = .error ⟨ascii "unexpected newline"⟩ := by
      rw [hin]
      unfold scanlnString
      simp only [List.singleton_append, List.length_cons]
      unfold skipSpace
      simp [decodeRune]
    rw [hg, hscan]

/-- C7 (amended) at the answers " Y " (flag set), "yes" (flag clear) and the
empty line (error). -/
theorem generateConfig_logging_witness :
    (generateConfig (statusEnv [] none) (freshWorld (ascii "srv\ngrp\nusr\npwd\n Y \nrest"))).1 =
      .ok { Server := ascii "srv", Group := ascii "grp", Username := ascii "usr",
            Password := ascii "pwd", CiscoLogs := true } ∧
    (generateConfig (statusEnv [] none) (freshWorld (ascii "srv\ngrp\nusr\npwd\nyes\n"))).1 =
      .ok { Server := ascii "srv", Group := ascii "grp", Username := ascii "usr",
            Password := ascii "pwd", CiscoLogs := false } ∧
    (generateConfig (statusEnv [] none) (freshWorld (ascii "srv\ngrp\nusr\npwd\n\ny\n"))).1 =
      .error ⟨ascii "unexpected newline"⟩ :=
  ⟨(generateConfig_logging (statusEnv [] none) (freshWorld (ascii "srv\ngrp\nusr\npwd\n Y \nrest"))
      (ascii "srv") (ascii "grp") (ascii "usr") (ascii "pwd") (ascii "grp\nusr\npwd\n Y \nrest")
      (ascii "usr\npwd\n Y \nrest") (ascii "pwd\n Y \nrest") (ascii " Y \nrest")
      (by decide) (by decide) (by decide) (by decide)).1 (ascii " ") (ascii "Y") (ascii " ")
      (ascii "rest") (by decide) ⟨[0x20], by decide, by decide⟩
      ⟨[0x59], by decide, by decide, by decide⟩ ⟨[0x20], by decide, by decide⟩
      (by decide) (by decide) (fun _ => rfl) (fun r hr => by show r ≠ 0x79; omega),
   (generateConfig_logging (statusEnv [] none) (freshWorld (ascii "srv\ngrp\nusr\npwd\nyes\n"))
      (ascii "srv") (ascii "grp") (ascii "usr") (ascii "pwd") (ascii "grp\nusr\npwd\nyes\n")
      (ascii "usr\npwd\nyes\n") (ascii "pwd\nyes\n") (ascii "yes\n")
      (by decide) (by decide) (by decide) (by decide)).1 [] (ascii "yes") [] []
      (by decide) ⟨[], by decide, by decide⟩
      ⟨[0x79, 0x65, 0x73], by decide, by decide, by decide⟩ ⟨[], by decide, by decide⟩
      (by decide) (by decide) (fun _ => rfl) (fun r hr => by show r ≠ 0x79; omega),
   (generateConfig_logging (statusEnv [] none) (freshWorld (ascii "srv\ngrp\nusr\npwd\n\ny\n"))
      (ascii "srv") (ascii "grp") (ascii "usr") (ascii "pwd") (ascii "grp\nusr\npwd\n\ny\n")
      (ascii "usr\npwd\n\ny\n") (ascii "pwd\n\ny\n") (ascii "\ny\n")
      (by decide) (by decide) (by decide) (by decide)).2 (ascii "y\n") (by decide)⟩

/-- C7 as stated fails on the empty answer line: with the four prompts answered
and an empty fifth line, generateConfig yields no configuration at all (so none
with the logging flag false) but the error of Scanln. -/
theorem generateConfig_logging_counterexample :
    (generateConfig (statusEnv [] none) (freshWorld (ascii "srv\ngrp\nusr\npwd\n\n"))).1 =
      .error ⟨ascii "unexpected newline"⟩ ∧
    ¬ ∃ c : Config,
      (generateConfig (statusEnv [] none) (freshWorld (ascii "srv\ngrp\nusr\npwd\n\n"))).1 = .ok c ∧
        c.CiscoLogs = false := by
  have h : (generateConfig (statusEnv [] none) (freshWorld (ascii "srv\ngrp\nusr\npwd\n\n"))).1 =
      .error ⟨ascii "unexpected newline"⟩ := by decide
  refine ⟨h, ?_⟩
  rintro ⟨c, hc, _⟩
  rw [h] at hc
  exact absurd hc (by simp)

/-- C8 as stated fails when the logging flag is set: the connect call fails
with the output "VPN connected successfully."; main exits with code 1 and that
text is on standard output. -/
theorem main_dispatch_counterexample :
    echoEnv.run (vpnCommand echoEnv) [ascii "-s", ascii "connect", ascii "vpn.example.org"]
        (ascii "2\nalice\nsecret\ny\n") =
      (ascii "VPN connected successfully.", some ⟨ascii "exit status 1"⟩) ∧
    (main echoEnv (freshWorld [])).1 = 1 ∧
    ascii "VPN connected successfully.\n" ∈ (main echoEnv (freshWorld [])).2.stdout := by
  decide

/-- C8 (amended) on a connected VPN whose disconnect call succeeds, and on a
disconnected VPN whose connect call fails with the logging flag set. -/
theorem main_dispatch_witness :
    main (statusEnv (ascii ">> state: Connected") none) (freshWorld (ascii "\n")) =
      (0, { freshWorld [] with
              dirs := [ascii "/home/alice/.easyconnect"],
              calls := [statusCall (statusEnv (ascii ">> state: Connected") none),
                        disconnectCall (statusEnv (ascii ">> state: Connected") none)],
              stdout := [ascii "VPN is currently connected. Disconnecting...\n",
                         ascii "VPN disconnected successfully.\n",
                         ascii "Press Enter to exit...\n"] }) ∧
    main echoEnv (freshWorld []) =
      (1, { freshWorld [] with
              dirs := [ascii "/home/alice/.easyconnect"],
              calls := [statusCall echoEnv,
                        connectCall echoEnv { sampleConfig with CiscoLogs := true }],
              stdout := [ascii "VPN is not connected. Connecting...\n",
                         ascii "VPN connected successfully.\n",
                         ascii "Error connecting VPN: exit status 1\n"] }) :=
  ⟨((main_dispatch (statusEnv (ascii ">> state: Connected") none) (freshWorld (ascii "\n"))
      { freshWorld (ascii "\n") with dirs := [ascii "/home/alice/.easyconnect"] } sampleConfig
      (ascii ">> state: Connected") (by decide) (by decide)).1 (by decide) []).1 (by decide),
   ((main_dispatch echoEnv (freshWorld [])
      { freshWorld [] with dirs := [ascii "/home/alice/.easyconnect"] }
      { sampleConfig with CiscoLogs := true }
      (ascii ">> state: Disconnected") (by decide) (by decide)).2 (by decide)
      (ascii "VPN connected successfully.")).2 ⟨ascii "exit status 1"⟩ (by decide)⟩

end EasyConnect
